import Mathlib

/-!
Verification of the BettaFish `ReportEngine/renderers/html_renderer.py`
document-tree normalization and rendering pipeline.

The Python source is shallowly embedded: dict/list/str/number values from the
document IR are modelled by the inductive type `JVal`; each Python method is
translated into a Lean function of the same name (in camelCase).  Machine
recursion that is bounded in Python only by the interpreter's recursion limit
is modelled with an explicit fuel parameter.  Character classes (`str.strip`,
the `\s` regex class) are modelled over the ASCII whitespace characters, which
covers every input exercised here.
-/

namespace BettaFish

/-- ASCII approximation of Python `str.isspace` / the regex class `\s`. -/
def pyIsSpace (c : Char) : Bool :=
  c = ' ' || c = '\t' || c = '\n' || c = '\x0d' || c = '\x0b' || c = '\x0c'

/-- Python `str.lstrip()` (whitespace form) on a character list. -/
def pyLstrip (s : List Char) : List Char := s.dropWhile pyIsSpace

/-- Python `str.rstrip()` (whitespace form) on a character list. -/
def pyRstrip (s : List Char) : List Char := (s.reverse.dropWhile pyIsSpace).reverse

/-- Python `str.strip()` (whitespace form) on a character list. -/
def pyStripChars (s : List Char) : List Char := pyRstrip (pyLstrip s)

/-- Python `str.strip()` on a `String`. -/
def pyStrip (s : String) : String := ⟨pyStripChars s.data⟩

/-- The separator characters stripped by the Artifact Cleaner:
Python `rstrip(',，、 \t\n')` in `_clean_text_from_json_artifacts`. -/
def cleanSepChars : List Char := [',', '，', '、', ' ', '\t', '\n']

/-- Python `str.rstrip(',，、 \t\n')` on a character list. -/
def rstripSeps (s : List Char) : List Char :=
  (s.reverse.dropWhile (fun c => cleanSepChars.contains c)).reverse

/-- Index of the last occurrence of `c` in `s` (Python `str.rfind`,
with `none` in place of `-1`). -/
def rfindIdx (c : Char) (s : List Char) : Option Nat :=
  match s with
  | [] => none
  | d :: rest =>
    match rfindIdx c rest with
    | some i => some (i + 1)
    | none => if d = c then some 0 else none

/-- Least index at which the tail-anchored matcher `m` accepts the suffix
of `s`; models the leftmost-match search of `re.sub` for an `$`-anchored
pattern. -/
def findMatchIdx (m : List Char → Bool) : List Char → Option Nat
  | [] => if m [] then some 0 else none
  | c :: rest =>
    if m (c :: rest) then some 0
    else (findMatchIdx m rest).map (· + 1)

/-- `re.sub(pat, '', s)` for a pattern anchored at the end of the string:
every match of the patterns embedded below extends to the end of the string,
so substitution truncates at the leftmost match start. -/
def subTail (m : List Char → Bool) (s : List Char) : List Char :=
  match findMatchIdx m s with
  | some i => s.take i
  | none => s

/-- Matcher for the regex tail `\s*\x7b[^\x7d]*$` (whitespace, an opening
brace, then no closing brace up to the end of the string). -/
def matchBraceTail (close : Char) («open» : Char) : List Char → Bool
  | [] => false
  | c :: rest =>
    if c = «open» then rest.all (fun d => d ≠ close)
    else if pyIsSpace c then matchBraceTail close «open» rest
    else false

/-- Matcher for `_clean_text_from_json_artifacts` pattern 1:
`,\s*\x7b[^\x7d]*$`. -/
def matchP1 : List Char → Bool
  | ',' :: rest => matchBraceTail '\x7d' '\x7b' rest
  | _ => false

/-- Matcher for `_clean_text_from_json_artifacts` pattern 2:
`,\s*\[[^\]]*$`. -/
def matchP2 : List Char → Bool
  | ',' :: rest => matchBraceTail ']' '[' rest
  | _ => false

/-- After the colon of pattern 5a: the regex tail `\s*"[^"]*$`. -/
def finP5a : List Char → Bool
  | [] => false
  | c :: rest =>
    if c = '\x22' then rest.all (fun d => d ≠ '\x22')
    else if pyIsSpace c then finP5a rest
    else false

/-- After the colon of pattern 5b: the regex tail `\s*[^,\x7d\]]*$`
(whitespace is itself outside the excluded class, so this is just: no
comma, closing brace or closing bracket up to the end). -/
def finP5b (s : List Char) : Bool :=
  s.all (fun d => d ≠ ',' && d ≠ '\x7d' && d ≠ ']')

/-- Key scan of patterns 5a/5b: after `"[^"]+` has started, find the closing
quote, then `\s*:` and hand over to the value matcher `fin`. -/
def matchP5Colon (fin : List Char → Bool) : List Char → Bool
  | [] => false
  | c :: rest =>
    if c = ':' then fin rest
    else if pyIsSpace c then matchP5Colon fin rest
    else false

/-- Scans the remainder of the quoted key (`[^"]+"`), then `\s*:\s*`,
then the value part. -/
def matchP5KeyScan (fin : List Char → Bool) : List Char → Bool
  | [] => false
  | c :: rest =>
    if c = '\x22' then matchP5Colon fin rest
    else matchP5KeyScan fin rest

/-- The key of patterns 5a/5b must have at least one non-quote character. -/
def matchP5Key (fin : List Char → Bool) : List Char → Bool
  | [] => false
  | c :: rest =>
    if c = '\x22' then false
    else matchP5KeyScan fin rest

/-- Whitespace then the opening quote of the key (`\s*"`). -/
def matchP5Ws (fin : List Char → Bool) : List Char → Bool
  | [] => false
  | c :: rest =>
    if c = '\x22' then matchP5Key fin rest
    else if pyIsSpace c then matchP5Ws fin rest
    else false

/-- Matchers for patterns 5a/5b: `,?\s*"[^"]+"\s*:\s*` followed by `fin`.
The leading comma, when present, must be consumed (a comma is neither
whitespace nor a quote). -/
def matchP5Start (fin : List Char → Bool) (s : List Char) : Bool :=
  match s with
  | ',' :: rest => matchP5Ws fin rest
  | _ => matchP5Ws fin s

/-- One unmatched-delimiter truncation step of
`_clean_text_from_json_artifacts` (patterns 3 and 4): if the last opening
delimiter occurs after the last closing one (or no closing one exists), the
text is truncated up to the opening delimiter and trailing separators are
stripped. -/
def braceTruncStep («open» : Char) (close : Char) (s : List Char) : List Char :=
  match rfindIdx «open» s with
  | none => s
  | some i =>
    match rfindIdx close s with
    | none => rstripSeps (s.take i)
    | some j => if j < i then rstripSeps (s.take i) else s

/-- `_clean_text_from_json_artifacts` on a character list: the five
substitution/truncation passes followed by the final separator strip. -/
def cleanChars (s : List Char) : List Char :=
  let s1 := subTail matchP1 s
  let s2 := subTail matchP2 s1
  let s3 := braceTruncStep '\x7b' '\x7d' s2
  let s4 := braceTruncStep '[' ']' s3
  let s5 := subTail (matchP5Start finP5a) s4
  let s6 := subTail (matchP5Start finP5b) s5
  pyStripChars (rstripSeps s6)

/-- `HTMLRenderer._clean_text_from_json_artifacts` restricted to string
inputs (`_safe_text` is the identity on strings; falsy input returns ""). -/
def cleanTextFromJsonArtifacts (s : String) : String :=
  if s = "" then "" else ⟨cleanChars s.data⟩

/-! ## The document IR value model

Python dict/list/str/int/bool/None values, as they appear in the document
IR.  Numbers are modelled as integers: every numeric literal handled by the
claims below is an integer, and the renderer performs no arithmetic on IR
numbers.  Dicts are association lists in insertion order with unique keys,
exactly as produced by `json.loads`. -/

inductive JVal where
  | jnull
  | jbool (b : Bool)
  | jnum (n : Int)
  | jstr (s : String)
  | jarr (elems : List JVal)
  | jobj (fields : List (String × JVal))
deriving Repr, BEq

/-- Structural equality for `JVal` (with fuel so that it reduces by plain
kernel computation; callers pass more fuel than any value here is deep). -/
def jeqFuel : Nat → JVal → JVal → Bool
  | 0 => fun _ _ => false
  | f + 1 => fun a b =>
    match a, b with
    | .jnull, .jnull => true
    | .jbool x, .jbool y => x = y
    | .jnum x, .jnum y => x = y
    | .jstr x, .jstr y => x = y
    | .jarr xs, .jarr ys =>
      xs.length = ys.length && (List.zip xs ys).all (fun p => jeqFuel f p.1 p.2)
    | .jobj xs, .jobj ys =>
      xs.length = ys.length &&
        (List.zip xs ys).all (fun p => p.1.1 = p.2.1 && jeqFuel f p.1.2 p.2.2)
    | _, _ => false

/-- `pre` is a prefix of `s` (kernel-computable `str.startswith`). -/
def strStartsWith (s pre : String) : Bool := pre.data.isPrefixOf s.data

/-- `post` is a suffix of `s` (kernel-computable `str.endswith`). -/
def strEndsWith (s post : String) : Bool := post.data.isSuffixOf s.data

/-- `s.lower()` on the character list (kernel-computable `str.lower`). -/
def toLowerStr (s : String) : String := ⟨s.data.map Char.toLower⟩

/-- Left-to-right non-overlapping replacement on character lists, fueled by
the list length (kernel-computable `str.replace` for a non-empty pattern). -/
def replaceChars (pat rep : List Char) : Nat → List Char → List Char
  | 0 => fun l => l
  | f + 1 => fun l =>
    match l with
    | [] => []
    | c :: t =>
      if !pat.isEmpty && pat.isPrefixOf (c :: t) then
        rep ++ replaceChars pat rep f ((c :: t).drop pat.length)
      else c :: replaceChars pat rep f t

/-- `s.replace(pat, rep)` for a non-empty pattern. -/
def strReplace (s pat rep : String) : String :=
  ⟨replaceChars pat.data rep.data s.data.length s.data⟩

/-- `dict.get(key)`: first binding of `key` (dict keys are unique). -/
def jget (fields : List (String × JVal)) (key : String) : Option JVal :=
  (fields.find? (fun kv => kv.1 = key)).map (·.2)

/-- `dict.get(key, default)`. -/
def jgetD (fields : List (String × JVal)) (key : String) (dflt : JVal) : JVal :=
  (jget fields key).getD dflt

/-- `key in dict`. -/
def jhasKey (fields : List (String × JVal)) (key : String) : Bool :=
  fields.any (fun kv => kv.1 = key)

/-- `dict[key] = v`: replace the binding in place, else append (CPython
dict update semantics). -/
def jsetKey (fields : List (String × JVal)) (key : String) (v : JVal) :
    List (String × JVal) :=
  if jhasKey fields key then
    fields.map (fun kv => if kv.1 = key then (key, v) else kv)
  else fields ++ [(key, v)]

/-- `dict.pop(key, None)`: the removed value (if any) and the remaining dict. -/
def jpopKey (fields : List (String × JVal)) (key : String) :
    Option JVal × List (String × JVal) :=
  (jget fields key, fields.filter (fun kv => kv.1 ≠ key))

/-- `block.get(key)` on an arbitrary IR value: `none` when the value is not
a dict or lacks the key. -/
def JVal.get (v : JVal) (key : String) : Option JVal :=
  match v with
  | .jobj fields => jget fields key
  | _ => none

/-- Python truthiness of an IR value. -/
def pyTruthy : JVal → Bool
  | .jnull => false
  | .jbool b => b
  | .jnum n => n ≠ 0
  | .jstr s => s ≠ ""
  | .jarr elems => !elems.isEmpty
  | .jobj fields => !fields.isEmpty

/-- Truthiness of `dict.get(key)` (a missing key is `None`, hence falsy). -/
def pyTruthyOpt : Option JVal → Bool
  | none => false
  | some v => pyTruthy v

/-- Python `a or b` over optional IR values. -/
def pyOr (a b : Option JVal) : Option JVal :=
  if pyTruthyOpt a then a else b

/-! ### `json.dumps` (fueled serializer)

Models `json.dumps(v, ensure_ascii=False)`: default separators `", "` and
`": "`, strings double-quoted with `\"`, `\\` and the control characters
`\n`, `\t`, `\r` escaped (no other escapes occur in the values handled
here). -/

/-- JSON string-literal escaping for one character. -/
def jsonEscapeChar (c : Char) : String :=
  if c = '\x22' then "\\\x22"
  else if c = '\\' then "\\\\"
  else if c = '\n' then "\\n"
  else if c = '\t' then "\\t"
  else if c = '\x0d' then "\\r"
  else String.singleton c

/-- JSON string literal for `s`. -/
def jsonQuote (s : String) : String :=
  "\x22" ++ String.join (s.data.map jsonEscapeChar) ++ "\x22"

/-- Fueled `json.dumps` body. -/
def jdump : Nat → JVal → String
  | 0 => fun _ => ""
  | f + 1 => fun v =>
    match v with
    | .jnull => "null"
    | .jbool b => if b then "true" else "false"
    | .jnum n => toString n
    | .jstr s => jsonQuote s
    | .jarr elems =>
      "[" ++ String.intercalate ", " (elems.map (jdump f)) ++ "]"
    | .jobj fields =>
      "\x7b" ++
        String.intercalate ", "
          (fields.map (fun kv => jsonQuote kv.1 ++ ": " ++ jdump f kv.2)) ++
        "\x7d"

/-- Fuel used for serializing / comparing IR values: far deeper than any
value in the pipeline (Python's own recursion limit plays the same role). -/
def irFuel : Nat := 1000

/-- `json.dumps(v, ensure_ascii=False)`. -/
def jsonDumps (v : JVal) : String := jdump irFuel v

/-- Value equality as used below (fueled structural equality). -/
def jeq (a b : JVal) : Bool := jeqFuel irFuel a b

/-! ### `json.loads` / `ast.literal_eval` (fueled recursive-descent parsers)

Models the ordered decoder attempts (`json.loads` first, then
`ast.literal_eval`) used by `_decode_embedded_block_payload` and
`_normalize_inline_payload`.  The Python-literal mode differs from the JSON
mode in its quote characters (`'` also allowed) and keyword spellings
(`True`/`False`/`None`).  `\uXXXX` escapes and floating-point literals are
modelled as parse failures: none of the payloads handled by the claims
contain them. -/

/-- JSON insignificant whitespace. -/
def skipJWs (s : List Char) : List Char :=
  s.dropWhile (fun c => c = ' ' || c = '\t' || c = '\n' || c = '\x0d')

/-- Single-character string escapes common to both decoders. -/
def escChar (c : Char) : Option Char :=
  if c = '\x22' then some '\x22'
  else if c = '\x27' then some '\x27'
  else if c = '\\' then some '\\'
  else if c = '/' then some '/'
  else if c = 'n' then some '\n'
  else if c = 't' then some '\t'
  else if c = 'r' then some '\x0d'
  else if c = 'b' then some '\x08'
  else if c = 'f' then some '\x0c'
  else none

/-- String-literal body after the opening quote: characters up to the
matching `quote`, processing backslash escapes. -/
def parseStrBody (quote : Char) : List Char → Option (List Char × List Char)
  | [] => none
  | c :: rest =>
    if c = quote then some ([], rest)
    else if c = '\\' then
      match rest with
      | [] => none
      | e :: rest2 =>
        match escChar e with
        | some d => (parseStrBody quote rest2).map (fun p => (d :: p.1, p.2))
        | none => none
    else (parseStrBody quote rest).map (fun p => (c :: p.1, p.2))

/-- A quoted string literal (JSON: `"`; Python literals: `"` or `'`). -/
def parseQuoted (py : Bool) (s : List Char) : Option (String × List Char) :=
  match s with
  | [] => none
  | c :: rest =>
    if c = '\x22' || (py && c = '\x27') then
      (parseStrBody c rest).map (fun p => (⟨p.1⟩, p.2))
    else none

/-- An integer literal; a following `.`/`e`/`E` (a float) is a modelled
parse failure. -/
def parseIntLit (s : List Char) : Option (Int × List Char) :=
  let core (t : List Char) (neg : Bool) : Option (Int × List Char) :=
    let digits := t.takeWhile Char.isDigit
    let rest := t.dropWhile Char.isDigit
    if digits.isEmpty then none
    else
      match rest with
      | d :: _ =>
        if d = '.' || d = 'e' || d = 'E' then none
        else
          let n : Int := Int.ofNat
            (digits.foldl (fun n c => n * 10 + (c.toNat - 48)) 0)
          some (if neg then -n else n, rest)
      | [] =>
        let n : Int := Int.ofNat
          (digits.foldl (fun n c => n * 10 + (c.toNat - 48)) 0)
        some (if neg then -n else n, rest)
  match s with
  | '-' :: t => core t true
  | t => core t false

/-- Fueled parser for the comma-separated field list of an object, given
the value parser `pv`; positioned after `\x7b` and any whitespace, with the
empty-object case already handled by the caller. -/
def parseFieldsF (pv : List Char → Option (JVal × List Char)) (py : Bool) :
    Nat → List Char → Option (List (String × JVal) × List Char)
  | 0 => fun _ => none
  | g + 1 => fun s =>
    match parseQuoted py (skipJWs s) with
    | none => none
    | some (k, s1) =>
      match skipJWs s1 with
      | ':' :: s2 =>
        match pv s2 with
        | none => none
        | some (v, s3) =>
          match skipJWs s3 with
          | ',' :: s4 =>
            (parseFieldsF pv py g s4).map (fun p => ((k, v) :: p.1, p.2))
          | '\x7d' :: s4 => some ([(k, v)], s4)
          | _ => none
      | _ => none

/-- Fueled parser for the comma-separated element list of an array, given
the value parser `pv`; the empty-array case is handled by the caller. -/
def parseElemsF (pv : List Char → Option (JVal × List Char)) :
    Nat → List Char → Option (List JVal × List Char)
  | 0 => fun _ => none
  | g + 1 => fun s =>
    match pv s with
    | none => none
    | some (v, s1) =>
      match skipJWs s1 with
      | ',' :: s2 => (parseElemsF pv g s2).map (fun p => (v :: p.1, p.2))
      | ']' :: s2 => some ([v], s2)
      | _ => none

/-- Keyword literals: `true`/`false`/`null` (JSON) or `True`/`False`/`None`
(Python literals). -/
def parseKeyword (py : Bool) (s : List Char) : Option (JVal × List Char) :=
  let kw (w : String) (v : JVal) (t : List Char) : Option (JVal × List Char) :=
    if w.data.isPrefixOf t then some (v, t.drop w.length) else none
  if py then
    (kw "True" (.jbool true) s).orElse fun _ =>
    (kw "False" (.jbool false) s).orElse fun _ =>
    kw "None" .jnull s
  else
    (kw "true" (.jbool true) s).orElse fun _ =>
    (kw "false" (.jbool false) s).orElse fun _ =>
    kw "null" .jnull s

/-- The fueled value parser shared by the `json.loads` model (`py = false`)
and the `ast.literal_eval` model (`py = true`). -/
def parseJV (py : Bool) : Nat → List Char → Option (JVal × List Char)
  | 0 => fun _ => none
  | f + 1 => fun s =>
    match skipJWs s with
    | [] => none
    | c :: rest =>
      if c = '\x7b' then
        match skipJWs rest with
        | '\x7d' :: s1 => some (.jobj [], s1)
        | s1 => (parseFieldsF (parseJV py f) py f s1).map (fun p => (.jobj p.1, p.2))
      else if c = '[' then
        match skipJWs rest with
        | ']' :: s1 => some (.jarr [], s1)
        | s1 => (parseElemsF (parseJV py f) f s1).map (fun p => (.jarr p.1, p.2))
      else if c = '\x22' || (py && c = '\x27') then
        (parseQuoted py (c :: rest)).map (fun p => (.jstr p.1, p.2))
      else if c = '-' || c.isDigit then
        (parseIntLit (c :: rest)).map (fun p => (.jnum p.1, p.2))
      else parseKeyword py (c :: rest)

/-- `json.loads(s)`: the whole string must be consumed (up to trailing
whitespace), else the decode fails. -/
def jsonLoads (s : String) : Option JVal :=
  match parseJV false irFuel s.data with
  | some (v, rest) => if (skipJWs rest).isEmpty then some v else none
  | none => none

/-- `ast.literal_eval(s)` restricted to the literal shapes that occur in
embedded-block payloads (dicts/lists/strings/ints/booleans/None). -/
def pyLiteralEval (s : String) : Option JVal :=
  match parseJV true irFuel s.data with
  | some (v, rest) => if (skipJWs rest).isEmpty then some v else none
  | none => none

/-! ## Block Repair Engine

`_expand_blocks_in_place`, `_extract_embedded_blocks`,
`_decode_embedded_block_payload`, `_collect_blocks_from_payload` and
`_coerce_block_dict`.  The engine is modelled purely: the in-place clearing
of a decoded `text` field is reflected in the returned block value. -/

/-- `HTMLRenderer._coerce_block_dict`: patch a dict into a minimally valid
block, inferring `type` from `widgetId`/`rows`/`cells`/`items`. -/
def coerceBlockDict (payload : JVal) : Option JVal :=
  match payload with
  | .jobj fields =>
    let fields :=
      if pyTruthyOpt (jget fields "type") then fields
      else if jhasKey fields "widgetId" then jsetKey fields "type" (.jstr "widget")
      else if jhasKey fields "rows" || jhasKey fields "cells" then
        let fields := jsetKey fields "type" (.jstr "table")
        if !jhasKey fields "rows" then
          match jget fields "cells" with
          | some (.jarr cells) =>
            let popped := (jpopKey fields "cells").2
            jsetKey popped "rows" (.jarr [.jobj [("cells", .jarr cells)]])
          | _ => fields
        else fields
      else if jhasKey fields "items" then jsetKey fields "type" (.jstr "list")
      else fields
    if pyTruthyOpt (jget fields "type") then some (.jobj fields) else none
  | _ => none

/-- `HTMLRenderer._collect_blocks_from_payload` (fueled): recursively
unrolls `blocks`/`cells`/`items` containers and coerces block-shaped
dicts.  Truthy non-list containers, over which CPython iteration would
fault, are modelled as contributing nothing. -/
def collectBlocksFromPayload : Nat → JVal → List JVal
  | 0 => fun _ => []
  | f + 1 => fun payload =>
    match payload with
    | .jobj fields =>
      let blockType := jget fields "type"
      let notType := !pyTruthyOpt blockType
      let isBlockList := match jget fields "blocks" with
        | some (.jarr _) => true
        | _ => false
      if isBlockList && notType then
        match jget fields "blocks" with
        | some (.jarr l) => (l.map (collectBlocksFromPayload f)).flatten
        | _ => []
      else if pyTruthyOpt (jget fields "cells") && notType then
        match jget fields "cells" with
        | some (.jarr cells) =>
          (cells.map fun cell =>
            collectBlocksFromPayload f ((cell.get "blocks").getD .jnull)).flatten
        | _ => []
      else if pyTruthyOpt (jget fields "items") && notType then
        match jget fields "items" with
        | some (.jarr its) => (its.map (collectBlocksFromPayload f)).flatten
        | _ => []
      else
        let doCoerce := pyTruthyOpt blockType ||
          pyTruthyOpt (jget fields "widgetId") || pyTruthyOpt (jget fields "rows")
        let collected := match (if doCoerce then coerceBlockDict (.jobj fields) else none) with
          | some c => [c]
          | none => []
        match jget fields "items", notType with
        | some (.jarr its), true => collected ++ (its.map (collectBlocksFromPayload f)).flatten
        | _, _ => collected
    | .jarr items => (items.map (collectBlocksFromPayload f)).flatten
    | _ => []

/-- `HTMLRenderer._decode_embedded_block_payload`: decode a string-shaped
block description (JSON first, then Python literals, with the bare-object
`[...]` wrap) and collect block nodes from it. -/
def decodeEmbeddedBlockPayload (raw : String) : Option (List JVal) :=
  let stripped := pyStrip raw
  match stripped.data with
  | [] => none
  | c :: _ =>
    if c ≠ '\x7b' && c ≠ '[' then none
    else
      let targets := if c ≠ '[' then [stripped, "[" ++ stripped ++ "]"] else [stripped]
      let payload := (targets.firstM (fun t => jsonLoads t)).orElse
        fun _ => targets.firstM (fun t => pyLiteralEval t)
      match payload with
      | none => none
      | some p =>
        let blocks := collectBlocksFromPayload irFuel p
        if blocks.isEmpty then none else some blocks

/-- Field traversal of `_extract_embedded_blocks.traverse`: a string-valued
`text` field that decodes is cleared to `""` and its blocks collected; all
other values are traversed recursively via `rec`. -/
def extractFieldsP (rec : JVal → JVal × List JVal) :
    List (String × JVal) → List (String × JVal) × List JVal
  | [] => ([], [])
  | (k, v) :: rest =>
    let tail := extractFieldsP rec rest
    match v with
    | .jstr s =>
      if k = "text" then
        match decodeEmbeddedBlockPayload s with
        | some bs => ((k, .jstr "") :: tail.1, bs ++ tail.2)
        | none => ((k, v) :: tail.1, tail.2)
      else ((k, v) :: tail.1, tail.2)
    | _ =>
      let p := rec v
      ((k, p.1) :: tail.1, p.2 ++ tail.2)

/-- Element traversal of `_extract_embedded_blocks.traverse` over a list
node. -/
def extractElemsP (rec : JVal → JVal × List JVal) :
    List JVal → List JVal × List JVal
  | [] => ([], [])
  | v :: rest =>
    let p := rec v
    let tail := extractElemsP rec rest
    (p.1 :: tail.1, p.2 ++ tail.2)

/-- `_extract_embedded_blocks.traverse` (fueled): returns the node with
decoded `text` fields cleared together with the extracted blocks. -/
def extractTraverse : Nat → JVal → JVal × List JVal
  | 0 => fun v => (v, [])
  | f + 1 => fun v =>
    match v with
    | .jobj fields =>
      let p := extractFieldsP (extractTraverse f) fields
      (.jobj p.1, p.2)
    | .jarr elems =>
      let p := extractElemsP (extractTraverse f) elems
      (.jarr p.1, p.2)
    | other => (other, [])

/-- `HTMLRenderer._extract_embedded_blocks`. -/
def extractEmbeddedBlocks (block : JVal) : JVal × List JVal :=
  extractTraverse irFuel block

/-- One pass of `_expand_blocks_in_place` over a block list, with `rec`
expanding the blocks recovered from each block. -/
def expandOne (rec : List JVal → List JVal) : List JVal → List JVal
  | [] => []
  | b :: rest =>
    let p := extractEmbeddedBlocks b
    p.1 :: (if p.2.isEmpty then [] else rec p.2) ++ expandOne rec rest

/-- `HTMLRenderer._expand_blocks_in_place` (fuel bounds the nesting depth of
recovered payloads, as the interpreter's recursion limit does in Python). -/
def expandBlocksInPlace : Nat → List JVal → List JVal
  | 0 => fun blocks => blocks
  | f + 1 => fun blocks => expandOne (expandBlocksInPlace f) blocks

/-! ## Python `str()` / `repr()` of IR values (needed by `str(value)` calls) -/

/-- Fueled Python `repr` of an IR value (single-quoted strings, `True` /
`False` / `None`). -/
def pyRepr : Nat → JVal → String
  | 0 => fun _ => ""
  | f + 1 => fun v =>
    match v with
    | .jnull => "None"
    | .jbool b => if b then "True" else "False"
    | .jnum n => toString n
    | .jstr s => "\x27" ++ s ++ "\x27"
    | .jarr elems => "[" ++ String.intercalate ", " (elems.map (pyRepr f)) ++ "]"
    | .jobj fields =>
      "\x7b" ++
        String.intercalate ", "
          (fields.map (fun kv => "\x27" ++ kv.1 ++ "\x27: " ++ pyRepr f kv.2)) ++
        "\x7d"

/-- Python `str(value)`. -/
def pyStr (v : JVal) : String :=
  match v with
  | .jstr s => s
  | .jnull => "None"
  | .jbool b => if b then "True" else "False"
  | .jnum n => toString n
  | other => pyRepr irFuel other

/-- Python `len(value)` for the container shapes that occur here. -/
def pyLen : JVal → Nat
  | .jarr elems => elems.length
  | .jobj fields => fields.length
  | .jstr s => s.length
  | _ => 0

/-! ## Table Normalizer

`_normalize_table_rows`, `_detect_transposed_header_span`,
`_is_potential_table_header`, `_looks_like_table_value`,
`_transpose_single_cell_table`, `_extract_row_text`. -/

/-- `HTMLRenderer.TABLE_COMPLEX_CHARS`. -/
def tableComplexChars : List Char :=
  ['@', '％', '%', '（', '）', '(', ')', '，', ',', '。', '；', ';', '：', ':',
   '、', '？', '?', '！', '!', '·', '…', '-', '—', '_', '+', '<', '>', '[', ']',
   '\x7b', '\x7d', '|', '\\', '/', '\x22', '\x27', '\x60', '~', '$', '^', '&',
   '*', '#']

/-- `HTMLRenderer._is_potential_table_header`. -/
def isPotentialTableHeader (text : String) : Bool :=
  if text = "" then false
  else
    let stripped := pyStripChars text.data
    if stripped.isEmpty || stripped.length > 12 then false
    else !stripped.any (fun ch => ch.isDigit || tableComplexChars.contains ch)

/-- `HTMLRenderer._looks_like_table_value`. -/
def looksLikeTableValue (text : String) : Bool :=
  if text = "" then false
  else
    let stripped := pyStripChars text.data
    if stripped.length ≥ 12 then true
    else stripped.any (fun ch => ch.isDigit || tableComplexChars.contains ch)

/-- Test whether an optional IR value is a given string (Python `== "..."`
comparisons on `dict.get` results). -/
def isStrVal (o : Option JVal) (s : String) : Bool :=
  match o with
  | some (.jstr t) => t = s
  | _ => false

/-- `HTMLRenderer._extract_row_text`: concatenated paragraph inline texts of
the first cell. -/
def extractRowText (row : JVal) : String :=
  match pyOr (row.get "cells") (some (.jarr [])) with
  | some (.jarr (cell :: _)) =>
    let blocks := match cell.get "blocks" with
      | some (.jarr bs) => bs
      | _ => []
    String.join <| blocks.map fun block =>
      match block with
      | .jobj _ =>
        if isStrVal (block.get "type") "paragraph" then
          let inlines := match pyOr (block.get "inlines") (some (.jarr [])) with
            | some (.jarr is) => is
            | _ => []
          String.join <| inlines.map fun inl =>
            let value := match inl with
              | .jobj fields => jget fields "text"
              | other => some other
            match value with
            | none => ""
            | some .jnull => ""
            | some v => pyStr v
        else ""
      | _ => ""
  | _ => ""

/-- `HTMLRenderer._detect_transposed_header_span` (`0` plays Python's falsy
role). -/
def detectTransposedHeaderSpan (rows : List JVal) (texts : List String) : Nat :=
  let maxFields := min 8 (rows.length / 2)
  let headerSpan := ((texts.take maxFields).takeWhile isPotentialTableHeader).length
  if headerSpan < 2 then 0
  else
    let remainder := texts.drop headerSpan
    if remainder.isEmpty || (rows.length - headerSpan) % headerSpan ≠ 0 then 0
    else if !remainder.any looksLikeTableValue then 0
    else headerSpan

/-- `(row.get("cells") or [\x7b\x7d])[0]` as used by
`_transpose_single_cell_table`. -/
def firstCellOf (row : JVal) : JVal :=
  match pyOr (row.get "cells") (some (.jarr [.jobj []])) with
  | some (.jarr (cell :: _)) => cell
  | _ => .jobj []

/-- `cell["header"] = True` after the deep copy. -/
def markHeaderCell (cell : JVal) : JVal :=
  match cell with
  | .jobj fields => .jobj (jsetKey fields "header" (.jbool true))
  | other => other

/-- Regrouping of the data rows into `span`-cell rows (the loop over
`range(0, len(data_rows), span)`); fueled by the list length. -/
def regroupDataRows : Nat → Nat → List JVal → List JVal
  | 0 => fun _ _ => []
  | f + 1 => fun span dataRows =>
    if dataRows.isEmpty then []
    else
      let group := dataRows.take span
      if group.length < span then []
      else
        .jobj [("cells", .jarr (group.map firstCellOf))] ::
          regroupDataRows f span (dataRows.drop span)

/-- `HTMLRenderer._transpose_single_cell_table`. -/
def transposeSingleCellTable (rows : List JVal) (span : Nat) : List JVal :=
  let total := rows.length
  if total ≤ span || (total - span) % span ≠ 0 then []
  else
    let headerRows := rows.take span
    let dataRows := rows.drop span
    let headerCells := headerRows.map (fun row => markHeaderCell (firstCellOf row))
    .jobj [("cells", .jarr headerCells)] :: regroupDataRows dataRows.length span dataRows

/-- `HTMLRenderer._normalize_table_rows`. -/
def normalizeTableRows (rows : List JVal) : List JVal :=
  if rows.isEmpty then []
  else if !rows.all (fun row => pyLen ((row.get "cells").getD (.jarr [])) = 1) then rows
  else
    let texts := rows.map extractRowText
    let headerSpan := detectTransposedHeaderSpan rows texts
    if headerSpan = 0 then rows
    else
      let normalized := transposeSingleCellTable rows headerSpan
      if normalized.isEmpty then rows else normalized

/-! ## Heading Labeler

`_compute_heading_labels`, `_strip_order_prefix`, `_to_chinese_numeral`. -/

/-- `HTMLRenderer._to_chinese_numeral`. -/
def toChineseNumeral (number : Nat) : String :=
  let numerals := ["零", "一", "二", "三", "四", "五", "六", "七", "八", "九", "十"]
  if number ≤ 10 then numerals.getD number ""
  else
    let tens := number / 10
    let ones := number % 10
    if number < 20 then "十" ++ (if ones ≠ 0 then numerals.getD ones "" else "")
    else
      (if tens > 0 then numerals.getD tens "" ++ "十" else "") ++
        (if ones ≠ 0 then numerals.getD ones "" else "")

/-- Python `s.split(sep, 1)` for a single-character separator: the parts
before and after the first occurrence, when the separator occurs. -/
def splitOnce (sep : Char) : List Char → Option (List Char × List Char)
  | [] => none
  | c :: rest =>
    if c = sep then some ([], rest)
    else (splitOnce sep rest).map (fun p => (c :: p.1, p.2))

/-- `HTMLRenderer._strip_order_prefix`: drop a leading ordinal such as
`1.2 ` or `一、`. -/
def stripOrderPfx (text : String) : String :=
  if text = "" then ""
  else
    let stripped := pyLstrip text.data
    let trySep (sep : Char) : Option String :=
      match splitOnce sep stripped with
      | some (before, after) =>
        if before.isEmpty then none else some ⟨pyStripChars after⟩
      | none => none
    match trySep ' ' with
    | some r => r
    | none =>
      match trySep '、' with
      | some r => r
      | none =>
        match trySep '.' with
        | some r => r
        | none =>
          match trySep '．' with
          | some r => r
          | none => ⟨pyStripChars stripped⟩

/-- One heading-label record (`level`/`display`/`label`/`title`). -/
structure LabelRec where
  level : Int
  display : String
  label : String
  title : String
deriving Repr, DecidableEq

/-- `label_map[anchor] = rec` (dict assignment on the accumulated map). -/
def setLabel (m : List (String × LabelRec)) (anchor : String) (rec : LabelRec) :
    List (String × LabelRec) :=
  if m.any (fun kv => kv.1 = anchor) then
    m.map (fun kv => if kv.1 = anchor then (anchor, rec) else kv)
  else m ++ [(anchor, rec)]

/-- Per-chapter counters of `_compute_heading_labels`. -/
structure HeadState where
  seen : Bool
  sectionIdx : Nat
  subsectionIdx : Nat
  deep : List (Int × Nat)
deriving Repr

/-- `deep_counters.get(level, 0)` and assignment. -/
def deepGet (deep : List (Int × Nat)) (level : Int) : Nat :=
  ((deep.find? (fun kv => kv.1 = level)).map (·.2)).getD 0

/-- `deep_counters[level] = n`. -/
def deepSet (deep : List (Int × Nat)) (level : Int) (n : Nat) : List (Int × Nat) :=
  if deep.any (fun kv => kv.1 = level) then
    deep.map (fun kv => if kv.1 = level then (level, n) else kv)
  else deep ++ [(level, n)]

/-- `block.get("level", 2)` (integer levels; a non-integer level would fault
in the Python comparison and does not occur in the IR). -/
def levelOf (block : JVal) : Int :=
  match block.get "level" with
  | some (.jnum n) => n
  | _ => 2

/-- `block.get("text", "")` (string texts; a non-string would fault in
`_strip_order_prefix`). -/
def textOf (block : JVal) : String :=
  match block.get "text" with
  | some (.jstr s) => s
  | _ => ""

/-- The heading branch body of `_compute_heading_labels` for one block. -/
def labelHeadingBlock (chapIdx : Nat) (chapterAnchor : Option JVal) (block : JVal)
    (st : HeadState) (m : List (String × LabelRec)) :
    HeadState × List (String × LabelRec) :=
  if !isStrVal (block.get "type") "heading" then (st, m)
  else
    let level := levelOf block
    let anchor := pyOr (block.get "anchor") chapterAnchor
    match anchor with
    | some (.jstr a) =>
      if a = "" then (st, m)
      else
        let rawText := textOf block
        let cleanTitle := stripOrderPfx rawText
        if !st.seen then
          let label := toChineseNumeral chapIdx ++ "、"
          let display := pyStrip (label ++ " " ++ cleanTitle)
          ({ seen := true, sectionIdx := 0, subsectionIdx := 0, deep := [] },
            setLabel m a ⟨level, display, label, cleanTitle⟩)
        else if level ≤ 2 then
          let sectionIdx := st.sectionIdx + 1
          let label := toString chapIdx ++ "." ++ toString sectionIdx
          let display := pyStrip (label ++ " " ++ cleanTitle)
          ({ st with
              sectionIdx := sectionIdx
              subsectionIdx := 0
              deep := [] },
            setLabel m a ⟨level, display, label, cleanTitle⟩)
        else
          let sectionIdx := if st.sectionIdx = 0 then 1 else st.sectionIdx
          if level = 3 then
            let subsectionIdx := st.subsectionIdx + 1
            let label := toString chapIdx ++ "." ++ toString sectionIdx ++ "." ++
              toString subsectionIdx
            let display := pyStrip (label ++ " " ++ cleanTitle)
            ({ st with
                sectionIdx := sectionIdx
                subsectionIdx := subsectionIdx
                deep := [] },
              setLabel m a ⟨level, display, label, cleanTitle⟩)
          else
            let deep := deepSet st.deep level (deepGet st.deep level + 1)
            let sortedKeys := (deep.map (·.1)).mergeSort (fun x y => x ≤ y)
            let parts := [toString chapIdx,
              toString (if sectionIdx = 0 then 1 else sectionIdx),
              toString (if st.subsectionIdx = 0 then 1 else st.subsectionIdx)] ++
              sortedKeys.map (fun lvl => toString (deepGet deep lvl))
            let label := String.intercalate "." parts
            let display := pyStrip (label ++ " " ++ cleanTitle)
            ({ st with
                sectionIdx := sectionIdx
                deep := deep },
              setLabel m a ⟨level, display, label, cleanTitle⟩)
    | _ => (st, m)

/-- Block loop of `_compute_heading_labels` for one chapter. -/
def labelChapterBlocks (chapIdx : Nat) (chapterAnchor : Option JVal)
    (blocks : List JVal) (st : HeadState) (m : List (String × LabelRec)) :
    List (String × LabelRec) :=
  match blocks with
  | [] => m
  | b :: rest =>
    let p := labelHeadingBlock chapIdx chapterAnchor b st m
    labelChapterBlocks chapIdx chapterAnchor rest p.1 p.2

/-- Chapter loop of `_compute_heading_labels` (`chapIdx` starts at 1). -/
def labelChapters (chapIdx : Nat) (chapters : List JVal)
    (m : List (String × LabelRec)) : List (String × LabelRec) :=
  match chapters with
  | [] => m
  | ch :: rest =>
    let blocks := match ch.get "blocks" with
      | some (.jarr bs) => bs
      | _ => []
    let m := labelChapterBlocks chapIdx (ch.get "anchor") blocks
      ⟨false, 0, 0, []⟩ m
    labelChapters (chapIdx + 1) rest m

/-- `HTMLRenderer._compute_heading_labels`. -/
def computeHeadingLabels (chapters : List JVal) : List (String × LabelRec) :=
  labelChapters 1 chapters []

/-- `label` looked up by anchor (`heading_label_map.get(anchor)`). -/
def labelAt (m : List (String × LabelRec)) (anchor : String) : Option LabelRec :=
  ((m.find? (fun kv => kv.1 = anchor)).map (·.2))

/-! ## Callout Sanitizer

`_split_callout_content` and `_sanitize_callout_list`.  Fuel bounds the
list-nesting depth, as the interpreter's recursion limit does in Python. -/

/-- `HTMLRenderer.CALLOUT_ALLOWED_TYPES`. -/
def calloutAllowedTypes : List String :=
  ["paragraph", "list", "table", "blockquote", "code", "math", "figure", "kpiGrid"]

/-- `child_type in CALLOUT_ALLOWED_TYPES` (a non-string type is not in the
set). -/
def isAllowedCalloutType (o : Option JVal) : Bool :=
  match o with
  | some (.jstr t) => calloutAllowedTypes.contains t
  | _ => false

/-- An IR list item as a block sequence (`items` elements are lists of
blocks). -/
def itemBlocks : JVal → List JVal
  | .jarr xs => xs
  | _ => []

/-- `trailing.extend(copy.deepcopy(rest_item))` over the remaining items. -/
def flattenItems (items : List JVal) : List JVal :=
  (items.map itemBlocks).flatten

/-- The child loop of `_split_callout_content`, with `sanList` sanitizing a
nested list child. -/
def splitGo (sanList : JVal → Option JVal × List JVal) :
    List JVal → List JVal × List JVal
  | [] => ([], [])
  | child :: rest =>
    if isStrVal (child.get "type") "list" then
      let p := sanList child
      let sanPart := match p.1 with
        | some s => [s]
        | none => []
      if p.2.isEmpty then
        let q := splitGo sanList rest
        (sanPart ++ q.1, q.2)
      else (sanPart, p.2 ++ rest)
    else if isAllowedCalloutType (child.get "type") then
      let q := splitGo sanList rest
      (child :: q.1, q.2)
    else ([], child :: rest)

/-- The item loop of `_sanitize_callout_list`, with `split` sanitizing each
item's block sequence. -/
def sanItemsGo (split : List JVal → List JVal × List JVal) :
    List JVal → List (List JVal) × List JVal
  | [] => ([], [])
  | item :: rest =>
    let p := split (itemBlocks item)
    if p.2.isEmpty then
      let q := sanItemsGo split rest
      ((if p.1.isEmpty then q.1 else p.1 :: q.1), q.2)
    else ((if p.1.isEmpty then [] else [p.1]), p.2 ++ flattenItems rest)

/-- `HTMLRenderer._sanitize_callout_list`, parameterized by the nested
content splitter. -/
def sanitizeCalloutList (split : List JVal → List JVal × List JVal)
    (block : JVal) : Option JVal × List JVal :=
  let items := match pyOr (block.get "items") (some (.jarr [])) with
    | some (.jarr its) => its
    | _ => []
  if items.isEmpty then (some block, [])
  else
    let p := sanItemsGo split items
    if p.1.isEmpty then (none, p.2)
    else
      match block with
      | .jobj fields =>
        (some (.jobj (jsetKey fields "items" (.jarr (p.1.map .jarr)))), p.2)
      | other => (some other, p.2)

/-- `HTMLRenderer._split_callout_content` (fueled by list-nesting depth). -/
def splitCalloutContent : Nat → List JVal → List JVal × List JVal
  | 0 => fun _ => ([], [])
  | f + 1 => fun blocks => splitGo (sanitizeCalloutList (splitCalloutContent f)) blocks

/-! ## KPI grid and the hero-duplication guard

`_kpi_signature_from_items`, `_normalize_kpi_item`,
`_should_skip_overview_kpi`, `_render_kpi_grid`, with the escaping helpers
`_safe_text` / `_escape_html`. -/

/-- `HTMLRenderer._safe_text`. -/
def safeText (v : JVal) : String :=
  match v with
  | .jnull => ""
  | .jstr s => s
  | .jbool b => if b then "True" else "False"
  | .jnum n => toString n
  | other => jsonDumps other

/-- `html.escape(s, quote=False)`. -/
def htmlEscapeNoQuote (s : String) : String :=
  String.join <| s.data.map fun c =>
    if c = '&' then "&amp;"
    else if c = '<' then "&lt;"
    else if c = '>' then "&gt;"
    else String.singleton c

/-- `HTMLRenderer._escape_html`. -/
def escapeHtml (v : JVal) : String := htmlEscapeNoQuote (safeText v)

/-- `html.escape(s, quote=True)` followed by the newline scrub of
`_escape_attr`. -/
def escapeAttr (v : JVal) : String :=
  String.join <| (safeText v).data.map fun c =>
    if c = '&' then "&amp;"
    else if c = '<' then "&lt;"
    else if c = '>' then "&gt;"
    else if c = '\x22' then "&quot;"
    else if c = '\x27' then "&#x27;"
    else if c = '\n' then " "
    else if c = '\x0d' then " "
    else String.singleton c

/-- The value normalizer inside `_normalize_kpi_item`. -/
def normalizeKpiValue : Option JVal → String
  | none => ""
  | some .jnull => ""
  | some (.jnum n) => toString n
  | some (.jbool b) => if b then "True" else "False"
  | some (.jstr s) => pyStrip s
  | some other => pyStrip (pyStr other)

/-- One KPI signature entry: `(label, value, unit, delta, tone)`. -/
abbrev KpiSigItem := String × String × String × String × String

/-- `HTMLRenderer._normalize_kpi_item`. -/
def normalizeKpiItem (item : JVal) : Option KpiSigItem :=
  match item with
  | .jobj fields =>
    some (normalizeKpiValue (jget fields "label"),
      normalizeKpiValue (jget fields "value"),
      normalizeKpiValue (jget fields "unit"),
      normalizeKpiValue (jget fields "delta"),
      normalizeKpiValue (pyOr (jget fields "deltaTone") (jget fields "tone")))
  | _ => none

/-- `HTMLRenderer._kpi_signature_from_items` (`none` models Python `None`;
a non-empty tuple is always truthy). -/
def kpiSignatureFromItems (items : JVal) : Option (List KpiSigItem) :=
  match items with
  | .jarr l =>
    let normalized := l.filterMap normalizeKpiItem
    if normalized.isEmpty then none else some normalized
  | _ => none

/-- `HTMLRenderer._should_skip_overview_kpi`. -/
def shouldSkipOverviewKpi (heroSig : Option (List KpiSigItem)) (block : JVal) :
    Bool :=
  match heroSig with
  | none => false
  | some sig =>
    match kpiSignatureFromItems ((block.get "items").getD .jnull) with
    | none => false
    | some blockSig => blockSig = sig

/-- One card of `_render_kpi_grid` (the `cards +=` f-string). -/
def kpiCardHtml (item : JVal) : String :=
  match item with
  | .jobj fields =>
    let delta := jget fields "delta"
    let deltaTone := if pyTruthyOpt (jget fields "deltaTone") then
        pyStr ((jget fields "deltaTone").getD .jnull)
      else "neutral"
    let deltaHtml := if pyTruthyOpt delta then
        "<span class=\x22delta " ++ deltaTone ++ "\x22>" ++
          escapeHtml (delta.getD .jnull) ++ "</span>"
      else ""
    "\n            <div class=\x22kpi-card\x22>\n              " ++
      "<div class=\x22kpi-value\x22>" ++ escapeHtml (jgetD fields "value" (.jstr "")) ++
      "<small>" ++ escapeHtml (jgetD fields "unit" (.jstr "")) ++ "</small></div>\n" ++
      "              <div class=\x22kpi-label\x22>" ++
      escapeHtml (jgetD fields "label" (.jstr "")) ++ "</div>\n              " ++
      deltaHtml ++ "\n            </div>\n            "
  | _ => ""

/-- `HTMLRenderer._render_kpi_grid` (the duplicate-of-hero guard and the
card grid). -/
def renderKpiGrid (heroSig : Option (List KpiSigItem)) (block : JVal) : String :=
  if shouldSkipOverviewKpi heroSig block then ""
  else
    let items := match block.get "items" with
      | some (.jarr l) => l
      | _ => []
    let cards := String.join (items.map kpiCardHtml)
    "<div class=\x22kpi-grid\x22>" ++ cards ++ "</div>"

/-! ## Inline Content Resolver

`_normalize_inline_payload` and `_coerce_inline_payload`. -/

/-- `HTMLRenderer.INLINE_ARTIFACT_KEYS`. -/
def inlineArtifactKeys : List String :=
  ["props", "widgetId", "widgetType", "data", "dataRef", "datasets", "labels",
   "config", "options"]

/-- The sentinel key set of `_normalize_inline_payload`. -/
def sentinelKeys : List String :=
  ["xrefs", "widgets", "footnotes", "errors", "metadata"]

/-- `HTMLRenderer._coerce_inline_payload`. -/
def coerceInlinePayload (payload : JVal) : Option JVal :=
  match payload with
  | .jobj fields =>
    let t := jget fields "type"
    if pyTruthyOpt t && !(isStrVal t "inline" || isStrVal t "text") then none
    else if !jhasKey fields "text" && !jhasKey fields "marks" then none
    else some (.jobj fields)
  | _ => none

/-- The `while isinstance(text_value, dict)` unwrap loop of
`_normalize_inline_payload` (fuel models the id-based cycle detection:
running out sets the text to `""` exactly as a detected cycle does; pure
tree values never hit it). -/
def unwrapInlineText : Nat → JVal → List JVal → JVal × List JVal
  | 0 => fun _ marks => (.jstr "", marks)
  | f + 1 => fun t marks =>
    match t with
    | .jobj fields =>
      let marks := match jget fields "marks" with
        | some (.jarr ms) => if ms.isEmpty then marks else marks ++ ms
        | _ => marks
      if jhasKey fields "text" then
        unwrapInlineText f (jgetD fields "text" .jnull) marks
      else (.jstr (jsonDumps (.jobj fields)), marks)
    | other => (other, marks)

/-- Stringification of the unwrapped text value (`None` → `""`, numbers and
booleans via `str`, other non-strings via `json.dumps`). -/
def coerceTextToString : JVal → String
  | .jnull => ""
  | .jnum n => toString n
  | .jbool b => if b then "True" else "False"
  | .jstr s => s
  | other => jsonDumps other

/-- `HTMLRenderer._normalize_inline_payload`: flatten a (possibly nested,
possibly serialized) inline run into a text value plus merged marks.  The
returned text is whatever Python would return (usually a string, but a
nested payload's `text` is passed through unchanged). -/
def normalizeInlinePayload (run : JVal) : JVal × List JVal :=
  match run with
  | .jobj fields =>
    let marks0 := match pyOr (jget fields "marks") (some (.jarr [])) with
      | some (.jarr ms) => ms
      | _ => []
    let p := unwrapInlineText irFuel (jgetD fields "text" (.jstr "")) marks0
    let tvs := coerceTextToString p.1
    let marks := p.2
    let stripped := pyStrip tvs
    if strStartsWith stripped "\x7b" && strEndsWith stripped "\x7d" then
      match (jsonLoads stripped).orElse (fun _ => pyLiteralEval stripped) with
      | some (.jobj pf) =>
        if (pf.map (·.1)).all (fun k => sentinelKeys.contains k) then
          (.jstr "", marks)
        else
          match coerceInlinePayload (.jobj pf) with
          | some (.jobj ipf) =>
            let tv2 := match jget ipf "text" with
              | some .jnull => .jstr tvs
              | none => .jstr tvs
              | some v => v
            let marks2 := match jget ipf "marks" with
              | some (.jarr ms) => marks ++ ms
              | _ => marks
            (tv2, marks2)
          | _ =>
            if pf.any (fun kv => inlineArtifactKeys.contains kv.1) then
              (.jstr "", marks)
            else (.jstr tvs, marks)
      | _ => (.jstr tvs, marks)
    else (.jstr tvs, marks)
  | .jnull => (.jstr "", [])
  | other => (.jstr (pyStr other), [])

/-! ## TOC collection

`_collect_toc_entries` and `_validate_toc_anchor`.  The renderer state read
by these methods (`metadata`, `chapter_anchor_map`, `heading_label_map`) is
passed explicitly. -/

/-- `self.chapter_anchor_map.get(key)` (keys and values are IR values as
built in `render`). -/
def anchorMapGet (m : List (JVal × JVal)) (key : Option JVal) : Option JVal :=
  match key with
  | none => none
  | some k => (m.find? (fun kv => jeq kv.1 k)).map (·.2)

/-- `anchor in self.heading_label_map` (string keys). -/
def anchorInLabelMap (a : JVal) (m : List (String × LabelRec)) : Bool :=
  match a with
  | .jstr s => m.any (fun kv => kv.1 = s)
  | _ => false

/-- `HTMLRenderer._validate_toc_anchor`. -/
def validateTocAnchor (anchorV : JVal) (chapterAnchorMap : List (JVal × JVal))
    (labelMap : List (String × LabelRec)) (chapters : List JVal) : Bool :=
  chapterAnchorMap.any (fun kv => jeq kv.2 anchorV) ||
  anchorInLabelMap anchorV labelMap ||
  chapters.any (fun ch =>
    jeq ((ch.get "anchor").getD .jnull) anchorV ||
    (match ch.get "blocks" with
      | some (.jarr bs) => bs.any (fun b => jeq ((b.get "anchor").getD .jnull) anchorV)
      | _ => false))

/-- `_clean_text_from_json_artifacts` on an arbitrary IR value (falsy input
returns `""`, other input is `_safe_text`ed first). -/
def cleanTextValue (v : JVal) : String :=
  if !pyTruthy v then "" else ⟨cleanChars (safeText v).data⟩

/-- The per-entry transformation of the `customEntries` branch of
`_collect_toc_entries`: `none` models the `continue` that skips an entry
without a usable anchor.  Validation of the anchor only logs a warning and
does not affect the result. -/
def tocCustomEntry (chapterAnchorMap : List (JVal × JVal)) (entry : JVal) :
    Option JVal :=
  let anchorV := pyOr (entry.get "anchor")
    (anchorMapGet chapterAnchorMap (entry.get "chapterId"))
  if !pyTruthyOpt anchorV then none
  else
    let description := (entry.get "description").getD .jnull
    let descriptionOut := if pyTruthy description then
        JVal.jstr (cleanTextValue description)
      else description
    some (.jobj
      [("level", (entry.get "level").getD (.jnum 2)),
       ("text", ((pyOr (entry.get "display")
          (pyOr (entry.get "title") (some (.jstr ""))))).getD (.jstr "")),
       ("anchor", anchorV.getD .jnull),
       ("description", descriptionOut)])

/-- The heading-based fallback branch of `_collect_toc_entries` for one
block. -/
def tocHeadingEntry (labelMap : List (String × LabelRec)) (chapter : JVal)
    (block : JVal) : Option JVal :=
  if !isStrVal (block.get "type") "heading" then none
  else
    let anchorV := (pyOr (block.get "anchor")
      (pyOr (chapter.get "anchor") (some (.jstr "")))).getD (.jstr "")
    if !pyTruthy anchorV then none
    else
      let mapped := match anchorV with
        | .jstr s => labelAt labelMap s
        | _ => none
      let text := match mapped with
        | some rec => if rec.display ≠ "" then JVal.jstr rec.display
            else (block.get "text").getD (.jstr "")
        | none => (block.get "text").getD (.jstr "")
      some (.jobj
        [("level", (block.get "level").getD (.jnum 2)),
         ("text", text),
         ("anchor", anchorV),
         ("description", .jnull)])

/-- `HTMLRenderer._collect_toc_entries`. -/
def collectTocEntries (metadata : JVal) (chapterAnchorMap : List (JVal × JVal))
    (labelMap : List (String × LabelRec)) (chapters : List JVal) : List JVal :=
  let tocConfig := match pyOr (metadata.get "toc") (some (.jobj [])) with
    | some v => v
    | none => .jobj []
  let customEntries := tocConfig.get "customEntries"
  if pyTruthyOpt customEntries then
    match customEntries with
    | some (.jarr entries) => entries.filterMap (tocCustomEntry chapterAnchorMap)
    | _ => []
  else
    chapters.flatMap fun chapter =>
      match chapter.get "blocks" with
      | some (.jarr bs) => bs.filterMap (tocHeadingEntry labelMap chapter)
      | _ => []

/-! ## Widget Payload Normalizer and widget rendering

`_merge_dicts`, `_looks_like_chart_dataset`, `_coerce_chart_data_structure`,
`_prepare_widget_payload`, `_is_chart_data_empty`, `_render_widget_fallback`,
`_render_wordcloud_fallback` and the payload-assembly tail of
`_render_widget` (everything after the external validator/repairer
orchestration, which applies unchanged to whichever block that external
collaborator leaves in place). -/

/-- Field fold of `_merge_dicts`, with `mrg` merging nested dicts. -/
def mergeFieldsF (mrg : JVal → JVal → JVal) :
    List (String × JVal) → List (String × JVal) → List (String × JVal)
  | result, [] => result
  | result, (k, v) :: rest =>
    let result := match v, jget result k with
      | .jobj _, some (.jobj rsub) => jsetKey result k (mrg (.jobj rsub) v)
      | _, _ => jsetKey result k v
    mergeFieldsF mrg result rest

/-- `HTMLRenderer._merge_dicts` (fueled recursive copy-merge; `None`
arguments are passed as `jnull`). -/
def mergeDicts : Nat → JVal → JVal → JVal
  | 0 => fun _ _ => .jobj []
  | f + 1 => fun base override =>
    let result := match base with
      | .jobj fs => fs
      | _ => []
    match override with
    | .jobj ofs => .jobj (mergeFieldsF (mergeDicts f) result ofs)
    | _ => .jobj result

/-- `HTMLRenderer._looks_like_chart_dataset`. -/
def looksLikeChartDataset (candidate : JVal) : Bool :=
  match candidate with
  | .jobj fields =>
    (match jget fields "labels" with
      | some (.jarr _) => true
      | _ => false) ||
    (match jget fields "datasets" with
      | some (.jarr _) => true
      | _ => false)
  | _ => false

/-- `HTMLRenderer._coerce_chart_data_structure`. -/
def coerceChartDataStructure (data : JVal) : JVal :=
  match data with
  | .jobj _ =>
    if looksLikeChartDataset data then data
    else if looksLikeChartDataset ((data.get "data").getD .jnull) then
      (data.get "data").getD .jnull
    else if looksLikeChartDataset ((data.get "chartData").getD .jnull) then
      (data.get "chartData").getD .jnull
    else if looksLikeChartDataset ((data.get "payload").getD .jnull) then
      (data.get "payload").getD .jnull
    else data
  | _ => .jobj []

/-- `widget_type.startswith("chart.js")` on an optional IR value (a
non-string widget type is not chart-like). -/
def isChartLikeType (o : Option JVal) : Bool :=
  match pyOr o (some (.jstr "")) with
  | some (.jstr s) => strStartsWith s "chart.js"
  | _ => false

/-- Boolean contiguous-substring test (`needle in hay` on strings). -/
def listHasInfix (needle : List Char) : List Char → Bool
  | [] => needle.isEmpty
  | c :: rest => needle.isPrefixOf (c :: rest) || listHasInfix needle rest

/-- `'wordcloud' in widget_type.lower()` (on `block.get('widgetType', '')`). -/
def isWordcloudType (o : Option JVal) : Bool :=
  match o.getD (.jstr "") with
  | .jstr s => listHasInfix "wordcloud".data (toLowerStr s).data
  | _ => false

/-- `HTMLRenderer._prepare_widget_payload`: normalized `(props, data)`. -/
def prepareWidgetPayload (block : JVal) : JVal × JVal :=
  let props := match pyOr (block.get "props") (some (.jobj [])) with
    | some (.jobj fs) => fs
    | _ => []
  let dataCopy := (block.get "data").getD .jnull
  let chartLike := isChartLikeType (block.get "widgetType")
  match chartLike, dataCopy with
  | true, .jobj dfs =>
    let inlineOptions := jget dfs "options"
    let popped1 := (jpopKey dfs "options").2
    let inlineType := jget popped1 "type"
    let popped2 := (jpopKey popped1 "type").2
    let normalizedData := coerceChartDataStructure (.jobj popped2)
    let props := match inlineOptions with
      | some (.jobj _) =>
        jsetKey props "options"
          (mergeDicts irFuel ((jget props "options").getD .jnull)
            (inlineOptions.getD .jnull))
      | _ => props
    let props := match inlineType with
      | some (.jstr t) =>
        if t ≠ "" && !pyTruthyOpt (jget props "type") then
          jsetKey props "type" (.jstr t)
        else props
      | _ => props
    (.jobj props, normalizedData)
  | _, .jobj _ => (.jobj props, dataCopy)
  | _, _ => (.jobj props, .jobj [])

/-- `HTMLRenderer._is_chart_data_empty`. -/
def isChartDataEmpty (data : JVal) : Bool :=
  match data with
  | .jobj fields =>
    match jget fields "datasets" with
    | some (.jarr datasets) =>
      if datasets.isEmpty then true
      else !datasets.any (fun ds =>
        match ds with
        | .jobj dfs =>
          match jget dfs "data" with
          | some (.jarr series) => !series.isEmpty
          | _ => false
        | _ => false)
    | _ => true
  | _ => true

/-- `HTMLRenderer._render_widget_fallback`: the static data-table fallback,
`""` when labels or datasets are missing/empty. -/
def renderWidgetFallback (data : JVal) (widgetId : Option JVal) : String :=
  match data with
  | .jobj fields =>
    let labelsV := pyOr (jget fields "labels") (some (.jarr []))
    let datasetsV := pyOr (jget fields "datasets") (some (.jarr []))
    if !pyTruthyOpt labelsV || !pyTruthyOpt datasetsV then ""
    else
      let labels := match labelsV with
        | some (.jarr l) => l
        | _ => []
      let datasets := match datasetsV with
        | some (.jarr l) => l
        | _ => []
      let widgetAttr := if pyTruthyOpt widgetId then
          " data-widget-id=\x22" ++ escapeAttr (widgetId.getD .jnull) ++ "\x22"
        else ""
      let headerCells := String.join <| (datasets.enum).map fun p =>
        let dsLabel := pyOr (p.2.get "label") (some (.jstr ("系列" ++ toString (p.1 + 1))))
        "<th>" ++ escapeHtml (dsLabel.getD .jnull) ++ "</th>"
      let bodyRows := String.join <| (labels.enum).map fun p =>
        let rowCells := ("<td>" ++ escapeHtml p.2 ++ "</td>") ++
          (String.join <| datasets.map fun ds =>
            let series := match pyOr (ds.get "data") (some (.jarr [])) with
              | some (.jarr l) => l
              | _ => []
            let value := (series.getD p.1 (.jstr ""))
            "<td>" ++ escapeHtml value ++ "</td>")
        "<tr>" ++ rowCells ++ "</tr>"
      "\n        <div class=\x22chart-fallback\x22 data-prebuilt=\x22true\x22" ++
        widgetAttr ++ ">\n          <table>\n            <thead>\n" ++
        "              <tr><th>类别</th>" ++ headerCells ++ "</tr>\n" ++
        "            </thead>\n            <tbody>\n              " ++ bodyRows ++
        "\n            </tbody>\n          </table>\n        </div>\n        "
  | _ => ""

/-- The `_format_weight` helper of `_render_wordcloud_fallback` (integer
numbers; `n*100:.1f` always ends in `.0` for integers and the two-decimal
form strips to the bare integer). -/
def formatWeight (v : JVal) : String :=
  match v with
  | .jnum n => if 0 ≤ n && n ≤ 1 then toString (n * 100) ++ ".0%" else toString n
  | other => pyStr other

/-- `HTMLRenderer._render_wordcloud_fallback`. -/
def renderWordcloudFallback (props : JVal) (widgetId : Option JVal) : String :=
  let words : List (String × JVal × String) := match props with
    | .jobj pfs =>
      match jget pfs "data" with
      | some (.jarr raw) =>
        raw.filterMap fun item =>
          match item with
          | .jobj ifs =>
            let text := pyOr (jget ifs "word")
              (pyOr (jget ifs "text") (jget ifs "label"))
            let weight := (jget ifs "weight").getD .jnull
            let category := (pyOr (jget ifs "category") (some (.jstr ""))).getD (.jstr "")
            if pyTruthyOpt text then
              some (pyStr (text.getD .jnull), weight, pyStr category)
            else none
          | _ => none
      | _ => []
    | _ => []
  if words.isEmpty then ""
  else
    let widgetAttr := if pyTruthyOpt widgetId then
        " data-widget-id=\x22" ++ escapeAttr (widgetId.getD .jnull) ++ "\x22"
      else ""
    let rows := String.join <| words.map fun w =>
      "<tr><td>" ++ escapeHtml (.jstr w.1) ++ "</td>" ++
      "<td>" ++ escapeHtml (.jstr (formatWeight w.2.1)) ++ "</td>" ++
      "<td>" ++ escapeHtml (.jstr (if w.2.2 ≠ "" then w.2.2 else "-")) ++ "</td></tr>"
    "\n        <div class=\x22chart-fallback\x22 data-prebuilt=\x22true\x22" ++
      widgetAttr ++ ">\n          <table>\n            <thead>\n" ++
      "              <tr><th>关键词</th><th>权重</th><th>类别</th></tr>\n" ++
      "            </thead>\n            <tbody>\n              " ++ rows ++
      "\n            </tbody>\n          </table>\n        </div>\n        "

/-- The pieces assembled by the tail of `_render_widget`: the JSON config
script tag (appended to `widget_scripts`), the fallback markup, and the
returned widget HTML. -/
structure WidgetOut where
  scriptTag : String
  fallback : String
  htmlOut : String
deriving Repr

/-- The `id="chart-config-N"` attribute of the config script tag. -/
def configIdAttr (chartCounter : Nat) : String :=
  "id=\x22chart-config-" ++ toString (chartCounter + 1) ++ "\x22"

/-- The `<canvas id="chart-N" data-config-id="chart-config-N">` placeholder
opening tag. -/
def canvasOpenTag (chartCounter : Nat) : String :=
  "<canvas id=\x22chart-" ++ toString (chartCounter + 1) ++
    "\x22 data-config-id=\x22chart-config-" ++ toString (chartCounter + 1) ++ "\x22>"

/-- The normalized JSON payload of a widget block (the dict passed to
`json.dumps` in `_render_widget`). -/
def widgetPayload (block : JVal) : JVal :=
  .jobj
    [("widgetId", (block.get "widgetId").getD .jnull),
     ("widgetType", (block.get "widgetType").getD .jnull),
     ("props", (prepareWidgetPayload block).1),
     ("data", (prepareWidgetPayload block).2),
     ("dataRef", (block.get "dataRef").getD .jnull)]

/-- `json.dumps(payload, ensure_ascii=False).replace("</", "<\\/")`. -/
def widgetConfigJson (block : JVal) : String :=
  strReplace (jsonDumps (widgetPayload block)) "</" "<\\/"

/-- `title_html` of `_render_widget`. -/
def widgetTitleHtml (block : JVal) : String :=
  let title := (prepareWidgetPayload block).1.get "title"
  if pyTruthyOpt title then
    "<div class=\x22chart-title\x22>" ++ escapeHtml (title.getD .jnull) ++ "</div>"
  else ""

/-- `fallback_html` of `_render_widget`. -/
def widgetFallbackHtml (block : JVal) : String :=
  if isWordcloudType (block.get "widgetType") then
    renderWordcloudFallback (prepareWidgetPayload block).1 (block.get "widgetId")
  else renderWidgetFallback (prepareWidgetPayload block).2 (block.get "widgetId")

/-- The widget card markup up to (excluding) the canvas placeholder. -/
def widgetCardPre (block : JVal) : String :=
  "\n        <div class=\x22chart-card" ++
    (if isWordcloudType (block.get "widgetType") then " wordcloud-card" else "") ++
    "\x22>\n          " ++ widgetTitleHtml block ++
    "\n          <div class=\x22chart-container\x22>\n            "

/-- The payload-assembly tail of `HTMLRenderer._render_widget` (source lines
1584–1617), applied to the block left in place after the external
validation/repair orchestration; `chartCounter` is `self.chart_counter`
before the increment. -/
def renderWidgetAssemble (block : JVal) (chartCounter : Nat) : WidgetOut :=
  ⟨"<script type=\x22application/json\x22 " ++ configIdAttr chartCounter ++ ">" ++
      widgetConfigJson block ++ "</script>",
    widgetFallbackHtml block,
    widgetCardPre block ++ canvasOpenTag chartCounter ++
      "</canvas>\n          </div>\n          " ++ widgetFallbackHtml block ++
      "\n        </div>\n        "⟩

/-! ## Concrete IR inputs used by the worked examples -/

/-- A single-cell table row whose cell holds one paragraph with one inline
run of text `t`. -/
def mkSingleCellRow (t : String) : JVal :=
  .jobj [("cells", .jarr [.jobj [("blocks", .jarr
    [.jobj [("type", .jstr "paragraph"),
      ("inlines", .jarr [.jobj [("text", .jstr t)]])]])]])]

/-- The nine single-cell rows of the Table Normalizer worked example. -/
def tableExampleRows : List JVal :=
  ["姓名", "年龄", "城市", "张三", "30", "北京", "李四", "25", "上海"].map
    mkSingleCellRow

/-- A heading block with the given level, anchor and text. -/
def mkHeading (lvl : Int) (a t : String) : JVal :=
  .jobj [("type", .jstr "heading"), ("level", .jnum lvl), ("anchor", .jstr a),
    ("text", .jstr t)]

/-- Chapter 1 of the Heading Labeler worked example. -/
def headingExampleCh1 : JVal :=
  .jobj [("anchor", .jstr "c1"), ("blocks", .jarr
    [mkHeading 1 "a1" "引言", mkHeading 2 "a2" "概述", mkHeading 2 "a3" "背景"])]

/-- Chapter 2 of the Heading Labeler worked example. -/
def headingExampleCh2 : JVal :=
  .jobj [("anchor", .jstr "c2"), ("blocks", .jarr
    [mkHeading 1 "a4" "分析", mkHeading 2 "a5" "方法", mkHeading 2 "a6" "结论"])]

/-- A block with only a `type` field. -/
def mkTypedBlock (t : String) : JVal := .jobj [("type", .jstr t)]

/-- The callout children of the Callout Sanitizer worked example:
`[paragraph, table, widget, paragraph]`. -/
def calloutExampleBlocks : List JVal :=
  [mkTypedBlock "paragraph", mkTypedBlock "table", mkTypedBlock "widget",
   mkTypedBlock "paragraph"]

/-- The first Inline Resolver worked-example run:
`text = '\x7b"xrefs": [1,2]\x7d'`. -/
def inlineExampleRun1 : JVal :=
  .jobj [("text", .jstr "\x7b\x22xrefs\x22: [1,2]\x7d")]

/-- The second Inline Resolver worked-example run:
`text = '\x7b"text":"hi","marks":[\x7b"type":"bold"\x7d]\x7d'`. -/
def inlineExampleRun2 : JVal :=
  .jobj [("text",
    .jstr "\x7b\x22text\x22:\x22hi\x22,\x22marks\x22:[\x7b\x22type\x22:\x22bold\x22\x7d]\x7d")]

/-- A custom TOC entry whose anchor resolves to chapter `c1`. -/
def tocEntryOk : JVal := .jobj [("anchor", .jstr "c1"), ("title", .jstr "第一章")]

/-- A custom TOC entry whose anchor resolves to no chapter or heading. -/
def tocEntryGhost : JVal := .jobj [("anchor", .jstr "ghost"), ("title", .jstr "幽灵")]

/-- Metadata carrying the two custom TOC entries above. -/
def tocExampleMetadata : JVal :=
  .jobj [("toc", .jobj [("customEntries", .jarr [tocEntryOk, tocEntryGhost])])]

/-- The single chapter of the TOC example (anchor `c1`, no blocks). -/
def tocExampleChapters : List JVal :=
  [.jobj [("chapterId", .jstr "ch1"), ("anchor", .jstr "c1"),
    ("blocks", .jarr [])]]

/-- The `chapter_anchor_map` built by `render` for the TOC example. -/
def tocExampleAnchorMap : List (JVal × JVal) := [(.jstr "ch1", .jstr "c1")]

/-- A widget block with no data at all (normalized chart data is empty). -/
def emptyDataWidget : JVal :=
  .jobj [("type", .jstr "widget"), ("widgetId", .jstr "w1"),
    ("widgetType", .jstr "custom")]

/-- A chart widget block with one label and one populated dataset. -/
def populatedChartWidget : JVal :=
  .jobj [("type", .jstr "widget"), ("widgetId", .jstr "w2"),
    ("widgetType", .jstr "chart.js/bar"),
    ("data", .jobj [("labels", .jarr [.jstr "A"]),
      ("datasets", .jarr [.jobj [("label", .jstr "s1"),
        ("data", .jarr [.jnum 3])]])])]

/-- KPI items shared by the hero section and a body `kpiGrid` block in the
C10 witness. -/
def kpiExampleItems : JVal :=
  .jarr [.jobj [("label", .jstr "声量"), ("value", .jnum 120), ("unit", .jstr "条"),
    ("delta", .jstr "+5%"), ("deltaTone", .jstr "up")]]

/-! ## Heap model for the mutating passes of `render`

`render` deep-copies the document's chapters (`_prepare_chapters`) and only
ever mutates that copy: `_expand_blocks_in_place` clears decoded `text`
fields in place, and `_normalize_chart_block` patches widget blocks in
place.  To state that the input document is never altered, these passes are
embedded against an explicit object heap: addresses are `Nat`, cells are
dict/list/leaf values whose children are addresses, `copy.deepcopy`
allocates fresh cells, and in-place mutation is a store write.  The frame
theorem then says every address allocated before `render` still holds its
original cell afterwards. -/

abbrev Addr := Nat

/-- A heap cell: a Python object of the document IR. -/
inductive HVal where
  | hnull
  | hbool (b : Bool)
  | hnum (n : Int)
  | hstr (s : String)
  | harr (elems : List Addr)
  | hdict (fields : List (String × Addr))
deriving Repr

/-- The object store: newest binding first, plus the next fresh address. -/
structure Heap where
  store : List (Addr × HVal)
  next : Addr
deriving Repr

/-- Dereference an address. -/
def Heap.lookup (h : Heap) (a : Addr) : Option HVal :=
  (h.store.find? (fun kv => kv.1 = a)).map (·.2)

/-- Allocate a fresh cell (`id` of a newly created Python object). -/
def Heap.alloc (h : Heap) (v : HVal) : Addr × Heap :=
  (h.next, ⟨(h.next, v) :: h.store, h.next + 1⟩)

/-- Overwrite the cell at `a` (in-place mutation of a Python object). -/
def Heap.write (h : Heap) (a : Addr) (v : HVal) : Heap :=
  ⟨(a, v) :: h.store, h.next⟩

/-- The child addresses held by a cell. -/
def cellPtrs : HVal → List Addr
  | .harr elems => elems
  | .hdict fields => fields.map (·.2)
  | _ => []

/-- Every cell at an address `≥ base` points only to addresses `≥ base`
(the copied/recovered region never points back into the original
document). -/
def RegionClosed (h : Heap) (base : Nat) : Prop :=
  ∀ a, base ≤ a → ∀ c, h.lookup a = some c → ∀ p ∈ cellPtrs c, base ≤ p

/-- The heap invariant carried through the mutating passes. -/
def Ok (base : Nat) (h : Heap) : Prop := base ≤ h.next ∧ RegionClosed h base

/-- `h'` extends `h` without touching any cell below `base`. -/
def Steps (base : Nat) (h h' : Heap) : Prop :=
  h.next ≤ h'.next ∧ ∀ a, a < base → h'.lookup a = h.lookup a

/-- `dict[key] = addr` on a field list. -/
def setFieldAddr (fields : List (String × Addr)) (key : String) (a : Addr) :
    List (String × Addr) :=
  if fields.any (fun kv => kv.1 = key) then
    fields.map (fun kv => if kv.1 = key then (key, a) else kv)
  else fields ++ [(key, a)]

/-- Address of `obj[key]` when `obj` is a dict with that key. -/
def getFieldAddr (h : Heap) (a : Addr) (key : String) : Option Addr :=
  match h.lookup a with
  | some (.hdict fields) => (fields.find? (fun kv => kv.1 = key)).map (·.2)
  | _ => none

/-- The cell behind `obj[key]`. -/
def readField (h : Heap) (a : Addr) (key : String) : Option HVal :=
  (getFieldAddr h a key).bind h.lookup

/-- `obj[key] = value-at-va` (a no-op on non-dict cells, which Python never
reaches on these paths). -/
def writeField (h : Heap) (a : Addr) (key : String) (va : Addr) : Heap :=
  match h.lookup a with
  | some (.hdict fields) => h.write a (.hdict (setFieldAddr fields key va))
  | _ => h

/-- Materialize a pure IR value as fresh heap cells (the object produced by
`json.loads`/`ast.literal_eval` during block recovery, or a merged dict
built by `_merge_dicts`). -/
def materializeListH (mat : JVal → Heap → Addr × Heap) :
    List JVal → Heap → List Addr × Heap
  | [], h => ([], h)
  | v :: rest, h =>
    let p := mat v h
    let t := materializeListH mat rest p.2
    (p.1 :: t.1, t.2)

/-- Field version of `materializeListH`. -/
def materializeFieldsH (mat : JVal → Heap → Addr × Heap) :
    List (String × JVal) → Heap → List (String × Addr) × Heap
  | [], h => ([], h)
  | (k, v) :: rest, h =>
    let p := mat v h
    let t := materializeFieldsH mat rest p.2
    ((k, p.1) :: t.1, t.2)

/-- Fueled materialization of one IR value. -/
def materializeH : Nat → JVal → Heap → Addr × Heap
  | 0 => fun _ h => h.alloc .hnull
  | f + 1 => fun v h =>
    match v with
    | .jnull => h.alloc .hnull
    | .jbool b => h.alloc (.hbool b)
    | .jnum n => h.alloc (.hnum n)
    | .jstr s => h.alloc (.hstr s)
    | .jarr elems =>
      let p := materializeListH (materializeH f) elems h
      p.2.alloc (.harr p.1)
    | .jobj fields =>
      let p := materializeFieldsH (materializeH f) fields h
      p.2.alloc (.hdict p.1)

/-- Materialize a list of recovered blocks in order. -/
def materializeManyH : List JVal → Heap → List Addr × Heap
  | [], h => ([], h)
  | v :: rest, h =>
    let p := materializeH irFuel v h
    let t := materializeManyH rest p.2
    (p.1 :: t.1, t.2)

/-- `copy.deepcopy` over lists, with `rec` copying each element. -/
def deepcopyListH (rec : Addr → Heap → Addr × Heap) :
    List Addr → Heap → List Addr × Heap
  | [], h => ([], h)
  | a :: rest, h =>
    let p := rec a h
    let t := deepcopyListH rec rest p.2
    (p.1 :: t.1, t.2)

/-- `copy.deepcopy` over dict fields. -/
def deepcopyFieldsH (rec : Addr → Heap → Addr × Heap) :
    List (String × Addr) → Heap → List (String × Addr) × Heap
  | [], h => ([], h)
  | (k, a) :: rest, h =>
    let p := rec a h
    let t := deepcopyFieldsH rec rest p.2
    ((k, p.1) :: t.1, t.2)

/-- Fueled `copy.deepcopy`: fresh cells for the whole reachable tree. -/
def deepcopyH : Nat → Addr → Heap → Addr × Heap
  | 0 => fun _ h => h.alloc .hnull
  | f + 1 => fun a h =>
    match h.lookup a with
    | some (.hdict fields) =>
      let p := deepcopyFieldsH (deepcopyH f) fields h
      p.2.alloc (.hdict p.1)
    | some (.harr elems) =>
      let p := deepcopyListH (deepcopyH f) elems h
      p.2.alloc (.harr p.1)
    | some leaf => h.alloc leaf
    | none => h.alloc .hnull

/-- Heap version of the field loop of `_extract_embedded_blocks.traverse`:
clears decodable string `text` fields (allocating the `""` cell and the
recovered block objects) and recurses into every other value via `rec`.
Returns the updated field list, the extracted block addresses, and the
heap. -/
def extractFieldsH (rec : Addr → Heap → List Addr × Heap) :
    List (String × Addr) → Heap → List (String × Addr) × List Addr × Heap
  | [], h => ([], [], h)
  | (k, va) :: rest, h =>
    if k = "text" then
      match h.lookup va with
      | some (.hstr s) =>
        match decodeEmbeddedBlockPayload s with
        | some bs =>
          let pe := h.alloc (.hstr "")
          let pm := materializeManyH bs pe.2
          let t := extractFieldsH rec rest pm.2
          ((k, pe.1) :: t.1, pm.1 ++ t.2.1, t.2.2)
        | none =>
          let t := extractFieldsH rec rest h
          ((k, va) :: t.1, t.2)
      | _ =>
        let p := rec va h
        let t := extractFieldsH rec rest p.2
        ((k, va) :: t.1, p.1 ++ t.2.1, t.2.2)
    else
      let p := rec va h
      let t := extractFieldsH rec rest p.2
      ((k, va) :: t.1, p.1 ++ t.2.1, t.2.2)

/-- Heap version of the list-element traversal. -/
def extractElemsH (rec : Addr → Heap → List Addr × Heap) :
    List Addr → Heap → List Addr × Heap
  | [], h => ([], h)
  | e :: rest, h =>
    let p := rec e h
    let t := extractElemsH rec rest p.2
    (p.1 ++ t.1, t.2)

/-- Heap version of `_extract_embedded_blocks` (fueled traverse; the dict
cell is rewritten with its possibly-cleared field list). -/
def extractH : Nat → Addr → Heap → List Addr × Heap
  | 0 => fun _ h => ([], h)
  | f + 1 => fun a h =>
    match h.lookup a with
    | some (.hdict fields) =>
      let t := extractFieldsH (extractH f) fields h
      (t.2.1, (t.2.2).write a (.hdict t.1))
    | some (.harr elems) => extractElemsH (extractH f) elems h
    | _ => ([], h)

/-- Heap version of one `_expand_blocks_in_place` pass. -/
def expandOneH (rec : List Addr → Heap → List Addr × Heap) :
    List Addr → Heap → List Addr × Heap
  | [], h => ([], h)
  | b :: rest, h =>
    let pe := extractH irFuel b h
    let pn := if pe.1.isEmpty then ([], pe.2) else rec pe.1 pe.2
    let pr := expandOneH rec rest pn.2
    (b :: pn.1 ++ pr.1, pr.2)

/-- Heap version of `_expand_blocks_in_place`. -/
def expandH : Nat → List Addr → Heap → List Addr × Heap
  | 0 => fun blocks h => (blocks, h)
  | f + 1 => fun blocks h => expandOneH (expandH f) blocks h

/-- `chapter_copy.get("blocks", [])` as a list of block addresses. -/
def chapterBlockAddrs (h : Heap) (chAddr : Addr) : List Addr :=
  match getFieldAddr h chAddr "blocks" with
  | some ba =>
    match h.lookup ba with
    | some (.harr elems) => elems
    | _ => []
  | none => []

/-- Heap version of the body of `_prepare_chapters` for one chapter:
deep-copy, expand the copy's blocks, store the new block list on the
copy. -/
def prepareChapterH (ch : Addr) (h : Heap) : Addr × Heap :=
  let pc := deepcopyH irFuel ch h
  let pe := expandH irFuel (chapterBlockAddrs pc.2 pc.1) pc.2
  let pl := pe.2.alloc (.harr pe.1)
  (pc.1, writeField pl.2 pc.1 "blocks" pl.1)

/-- Heap version of `_prepare_chapters`. -/
def prepareChaptersH : List Addr → Heap → List Addr × Heap
  | [], h => ([], h)
  | ch :: rest, h =>
    let p := prepareChapterH ch h
    let t := prepareChaptersH rest p.2
    (p.1 :: t.1, t.2)

/-- Read the pure IR value rooted at an address (no mutation). -/
def readJValH : Nat → Heap → Addr → JVal
  | 0 => fun _ _ => .jnull
  | f + 1 => fun h a =>
    match h.lookup a with
    | some (.hbool b) => .jbool b
    | some (.hnum n) => .jnum n
    | some (.hstr s) => .jstr s
    | some (.harr elems) => .jarr (elems.map (readJValH f h))
    | some (.hdict fields) => .jobj (fields.map (fun kv => (kv.1, readJValH f h kv.2)))
    | _ => .jnull

/-- Truthiness of the cell at an address (`if chapter_context:`). -/
def hvalTruthy (h : Heap) (a : Addr) : Bool :=
  match h.lookup a with
  | some .hnull => false
  | some (.hbool b) => b
  | some (.hnum n) => n ≠ 0
  | some (.hstr s) => s ≠ ""
  | some (.harr elems) => !elems.isEmpty
  | some (.hdict fields) => !fields.isEmpty
  | none => false

/-- The label list synthesized from a dataset's points (`labels_from_data`
in `_normalize_chart_block`). -/
def labelsFromPoints (points : List JVal) : List String :=
  points.enum.map fun p =>
    match p.2 with
    | .jobj pf =>
      pyStr ((pyOr (jget pf "x") (pyOr (jget pf "label")
        (some (.jstr ("点" ++ toString (p.1 + 1)))))).getD .jnull)
    | _ => "点" ++ toString (p.1 + 1)

/-- `_normalize_chart_block` step 1: ensure `block["props"]` is a dict. -/
def ncbProps (block : Addr) (h : Heap) : Heap :=
  match readField h block "props" with
  | some (.hdict _) => h
  | _ =>
    let pa := h.alloc (.hdict [])
    writeField pa.2 block "props" pa.1

/-- `_normalize_chart_block` step 2: merge a stray top-level `scales` dict
into `props.options`. -/
def ncbScales (block : Addr) (h : Heap) : Heap :=
  match getFieldAddr h block "scales" with
  | some sa =>
    match h.lookup sa with
    | some (.hdict _) =>
      let scalesVal := readJValH irFuel h sa
      match getFieldAddr h block "props" with
      | some pAddr =>
        let optionsVal := match readField h pAddr "options" with
          | some (.hdict _) =>
            match getFieldAddr h pAddr "options" with
            | some oa => readJValH irFuel h oa
            | none => .jobj []
          | _ => .jobj []
        let merged := mergeDicts irFuel optionsVal (.jobj [("scales", scalesVal)])
        let pm := materializeH irFuel merged h
        writeField pm.2 pAddr "options" pm.1
      | none => h
    | _ => h
  | none => h

/-- `_normalize_chart_block` step 3: ensure `block["data"]` is a dict. -/
def ncbData (block : Addr) (h : Heap) : Heap :=
  match readField h block "data" with
  | some (.hdict _) => h
  | _ =>
    let da := h.alloc (.hdict [])
    writeField da.2 block "data" da.1

/-- `_normalize_chart_block` step 4: when the block's datasets are empty,
fall back to the enclosing chapter's `data.datasets`/`labels`. -/
def ncbFallback (block : Addr) (chapterCtx : Option Addr) (h : Heap) : Heap :=
  match chapterCtx with
  | none => h
  | some ctx =>
    if !hvalTruthy h ctx then h
    else
      let dataVal := match getFieldAddr h block "data" with
        | some da => readJValH irFuel h da
        | none => .jnull
      if !isChartDataEmpty dataVal then h
      else
        let chData := match getFieldAddr h ctx "data" with
          | some ca =>
            match h.lookup ca with
            | some (.hdict _) => readJValH irFuel h ca
            | _ => .jnull
          | none => .jnull
        match chData with
        | .jobj cfs =>
          match jget cfs "datasets" with
          | some (.jarr ds) =>
            if ds.isEmpty then h
            else
              let merged1 := match dataVal with
                | .jobj mfs => JVal.jobj (jsetKey mfs "datasets" (.jarr ds))
                | _ => JVal.jobj [("datasets", .jarr ds)]
              let merged2 := match merged1 with
                | .jobj mfs =>
                  if !pyTruthyOpt (jget mfs "labels") then
                    match jget cfs "labels" with
                    | some (.jarr ls) =>
                      JVal.jobj (jsetKey mfs "labels" (.jarr ls))
                    | _ => merged1
                  else merged1
                | other => other
              let pm := materializeH irFuel merged2 h
              writeField pm.2 block "data" pm.1
          | _ => h
        | _ => h

/-- `_normalize_chart_block` step 5: synthesize `labels` from the first
dataset's point data when labels are still missing. -/
def ncbLabels (block : Addr) (h : Heap) : Heap :=
  match getFieldAddr h block "data" with
  | none => h
  | some da =>
    match readJValH irFuel h da with
    | .jobj dfs =>
      if pyTruthyOpt (jget dfs "labels") then h
      else
        match jget dfs "datasets" with
        | some (.jarr (firstDs :: _)) =>
          let dsData := match firstDs with
            | .jobj ffs => jget ffs "data"
            | _ => none
          match dsData with
          | some (.jarr points) =>
            let labels := labelsFromPoints points
            if labels.isEmpty then h
            else
              let pm := materializeH irFuel (.jarr (labels.map .jstr)) h
              writeField pm.2 da "labels" pm.1
          | _ => h
        | _ => h
    | _ => h

/-- Heap version of `HTMLRenderer._normalize_chart_block`: in-place repair
of a chart widget block (ensure `props`/`data`, merge top-level `scales`
into `props.options`, fall back to chapter-level datasets, and synthesize
labels from point data). -/
def normalizeChartBlockH (block : Addr) (chapterCtx : Option Addr)
    (h0 : Heap) : Heap :=
  if !(match readField h0 block "type" with
      | some (.hstr t) => t = "widget"
      | _ => false) then h0
  else if !(match readField h0 block "widgetType" with
      | some (.hstr s) => strStartsWith s "chart.js"
      | _ => false) then h0
  else
    ncbLabels block
      (ncbFallback block chapterCtx
        (ncbData block (ncbScales block (ncbProps block h0))))

/-- The mutating passes of one `render` call: prepare (deep-copy + block
repair) of all chapters, then the in-place chart normalization of each
widget block encountered while rendering (`w.1` the widget block address,
`w.2` the enclosing prepared chapter, both inside the copied region). -/
def renderMutationPass (chapters : List Addr) (ws : List (Addr × Option Addr))
    (h : Heap) : List Addr × Heap :=
  let p := prepareChaptersH chapters h
  (p.1, ws.foldl (fun hh w => normalizeChartBlockH w.1 w.2 hh) p.2)

/-- The concrete two-cell document heap used by the C5 witness: one chapter
dict at address 0 whose `anchor` field is the string cell at address 1. -/
def witnessHeap : Heap :=
  ⟨[(0, .hdict [("anchor", 1)]), (1, .hstr "c1")], 2⟩

/-! ## Supporting lemmas -/

theorem subTail_length_le (m : List Char → Bool) (s : List Char) :
    (subTail m s).length ≤ s.length := by
  unfold subTail
  cases findMatchIdx m s with
  | none => exact Nat.le_refl _
  | some i =>
    simp only [List.length_take]
    exact Nat.min_le_right _ _

theorem dropWhile_length_le (p : Char → Bool) (l : List Char) :
    (l.dropWhile p).length ≤ l.length :=
  (List.dropWhile_sublist _).length_le

theorem rstripSeps_length_le (s : List Char) :
    (rstripSeps s).length ≤ s.length := by
  unfold rstripSeps
  calc ((s.reverse.dropWhile _).reverse).length
      = (s.reverse.dropWhile _).length := List.length_reverse _
    _ ≤ s.reverse.length := dropWhile_length_le _ _
    _ = s.length := List.length_reverse _

theorem pyStripChars_length_le (s : List Char) :
    (pyStripChars s).length ≤ s.length := by
  unfold pyStripChars pyRstrip pyLstrip
  calc (((s.dropWhile pyIsSpace).reverse.dropWhile pyIsSpace).reverse).length
      = ((s.dropWhile pyIsSpace).reverse.dropWhile pyIsSpace).length :=
        List.length_reverse _
    _ ≤ (s.dropWhile pyIsSpace).reverse.length := dropWhile_length_le _ _
    _ = (s.dropWhile pyIsSpace).length := List.length_reverse _
    _ ≤ s.length := dropWhile_length_le _ _

theorem braceTruncStep_length_le (o c : Char) (s : List Char) :
    (braceTruncStep o c s).length ≤ s.length := by
  have htake : ∀ i : Nat, (rstripSeps (s.take i)).length ≤ s.length := by
    intro i
    refine Nat.le_trans (rstripSeps_length_le _) ?_
    simp only [List.length_take]
    exact Nat.min_le_right _ _
  unfold braceTruncStep
  split
  · exact Nat.le_refl _
  · split
    · exact htake _
    · split
      · exact htake _
      · exact Nat.le_refl _

theorem cleanChars_length_le (s : List Char) :
    (cleanChars s).length ≤ s.length := by
  unfold cleanChars
  refine Nat.le_trans (pyStripChars_length_le _) ?_
  refine Nat.le_trans (rstripSeps_length_le _) ?_
  refine Nat.le_trans (subTail_length_le _ _) ?_
  refine Nat.le_trans (subTail_length_le _ _) ?_
  refine Nat.le_trans (braceTruncStep_length_le _ _ _) ?_
  refine Nat.le_trans (braceTruncStep_length_le _ _ _) ?_
  exact Nat.le_trans (subTail_length_le _ _) (subTail_length_le _ _)

theorem expandOne_length_le (rec : List JVal → List JVal) (blocks : List JVal) :
    blocks.length ≤ (expandOne rec blocks).length := by
  induction blocks with
  | nil => simp [expandOne]
  | cons b rest ih =>
    simp only [expandOne, List.length_cons, List.length_append]
    omega

theorem expandOne_sublist (rec : List JVal → List JVal) (blocks : List JVal) :
    List.Sublist (blocks.map (fun b => (extractEmbeddedBlocks b).1))
      (expandOne rec blocks) := by
  induction blocks with
  | nil => simp [expandOne]
  | cons b rest ih =>
    simp only [expandOne, List.map_cons]
    exact List.Sublist.cons₂ _ (ih.trans (List.sublist_append_right _ _))

theorem splitGo_no_list (sanList : JVal → Option JVal × List JVal)
    (blocks : List JVal)
    (h : ∀ b ∈ blocks, isStrVal (b.get "type") "list" = false) :
    splitGo sanList blocks =
      (blocks.takeWhile (fun b => isAllowedCalloutType (b.get "type")),
       blocks.dropWhile (fun b => isAllowedCalloutType (b.get "type"))) := by
  induction blocks with
  | nil => rfl
  | cons b rest ih =>
    have hb := h b (List.mem_cons_self b rest)
    have ih' := ih (fun x hx => h x (List.mem_cons_of_mem b hx))
    by_cases ha : isAllowedCalloutType (b.get "type") = true
    · simp [splitGo, hb, ha, ih', List.takeWhile_cons, List.dropWhile_cons]
    · simp [splitGo, hb, ha, List.takeWhile_cons, List.dropWhile_cons,
        Bool.not_eq_true] at ih' ⊢

theorem string_infix_of_append (a t b : String) :
    t.data <:+: (a ++ t ++ b).data :=
  ⟨a.data, b.data, by simp⟩

/-! ### Heap frame lemmas -/

theorem Steps.kept (base : Nat) (h : Heap) : Steps base h h :=
  ⟨Nat.le_refl _, fun _ _ => rfl⟩

theorem Steps.chain {base : Nat} {h h' h'' : Heap}
    (s1 : Steps base h h') (s2 : Steps base h' h'') : Steps base h h'' :=
  ⟨Nat.le_trans s1.1 s2.1, fun a ha => (s2.2 a ha).trans (s1.2 a ha)⟩

theorem lookup_cons (s : List (Addr × HVal)) (nx b : Addr) (v : HVal)
    (a : Addr) :
    Heap.lookup ⟨(b, v) :: s, nx⟩ a =
      if b = a then some v else Heap.lookup ⟨s, nx⟩ a := by
  by_cases hba : b = a <;> simp [Heap.lookup, List.find?, hba]

theorem lookup_alloc (h : Heap) (v : HVal) (a : Addr) :
    ((h.alloc v).2).lookup a = if h.next = a then some v else h.lookup a := by
  show Heap.lookup ⟨(h.next, v) :: h.store, h.next + 1⟩ a = _
  rw [lookup_cons]
  rfl

theorem lookup_write (h : Heap) (b : Addr) (v : HVal) (a : Addr) :
    (h.write b v).lookup a = if b = a then some v else h.lookup a := by
  show Heap.lookup ⟨(b, v) :: h.store, h.next⟩ a = _
  rw [lookup_cons]

theorem regionClosed_ptrs {base : Nat} {h : Heap} {a : Addr} {c : HVal}
    (hok : Ok base h) (ha : base ≤ a) (hc : h.lookup a = some c) :
    ∀ p ∈ cellPtrs c, base ≤ p :=
  hok.2 a ha c hc

theorem alloc_spec {base : Nat} {h : Heap} (v : HVal) (hok : Ok base h)
    (hp : ∀ p ∈ cellPtrs v, base ≤ p) :
    Ok base (h.alloc v).2 ∧ Steps base h (h.alloc v).2 ∧
      base ≤ (h.alloc v).1 := by
  obtain ⟨hb, hrc⟩ := hok
  have hb1 : base ≤ (h.alloc v).2.next := Nat.le_succ_of_le hb
  have hb2 : h.next ≤ (h.alloc v).2.next := Nat.le_succ _
  refine ⟨⟨hb1, ?_⟩, ⟨hb2, ?_⟩, hb⟩
  · intro a ha c hc p hpc
    rw [lookup_alloc] at hc
    by_cases hna : h.next = a
    · rw [if_pos hna] at hc
      cases hc
      exact hp p hpc
    · rw [if_neg hna] at hc
      exact hrc a ha c hc p hpc
  · intro a ha
    have hne : h.next ≠ a := Nat.ne_of_gt (Nat.lt_of_lt_of_le ha hb)
    rw [lookup_alloc, if_neg hne]

theorem write_spec {base : Nat} {h : Heap} (a : Addr) (v : HVal)
    (hok : Ok base h) (ha : base ≤ a) (hp : ∀ p ∈ cellPtrs v, base ≤ p) :
    Ok base (h.write a v) ∧ Steps base h (h.write a v) := by
  obtain ⟨hb, hrc⟩ := hok
  have hb1 : base ≤ (h.write a v).next := hb
  have hb2 : h.next ≤ (h.write a v).next := Nat.le_refl _
  refine ⟨⟨hb1, ?_⟩, ⟨hb2, ?_⟩⟩
  · intro x hx c hc p hpc
    rw [lookup_write] at hc
    by_cases hax : a = x
    · rw [if_pos hax] at hc
      cases hc
      exact hp p hpc
    · rw [if_neg hax] at hc
      exact hrc x hx c hc p hpc
  · intro x hx
    have hne : a ≠ x := Nat.ne_of_gt (Nat.lt_of_lt_of_le hx ha)
    rw [lookup_write, if_neg hne]

theorem setFieldAddr_ptrs (fields : List (String × Addr)) (key : String)
    (va : Addr) :
    ∀ p ∈ (setFieldAddr fields key va).map (·.2),
      p = va ∨ p ∈ fields.map (·.2) := by
  intro p hp
  unfold setFieldAddr at hp
  split at hp
  · simp only [List.map_map, List.mem_map] at hp
    obtain ⟨kv, hkv, hval⟩ := hp
    by_cases hk : kv.1 = key
    · left
      simpa [hk] using hval.symm
    · right
      simp only [List.mem_map]
      exact ⟨kv, hkv, by simpa [hk] using hval⟩
  · simp only [List.map_append, List.mem_append, List.map_cons,
      List.map_nil, List.mem_cons, List.not_mem_nil, or_false] at hp
    rcases hp with hp | hp
    · right
      exact hp
    · left
      exact hp

theorem getFieldAddr_ge {base : Nat} {h : Heap} {a : Addr} {key : String}
    {fa : Addr} (hok : Ok base h) (ha : base ≤ a)
    (hfa : getFieldAddr h a key = some fa) : base ≤ fa := by
  unfold getFieldAddr at hfa
  split at hfa
  case _ fields heq =>
    obtain ⟨kv, hkv, hv⟩ : ∃ kv, List.find? (fun kv => kv.1 = key) fields
        = some kv ∧ kv.2 = fa := by
      cases hfind : List.find? (fun kv => kv.1 = key) fields with
      | none => rw [hfind] at hfa; cases hfa
      | some kv => rw [hfind] at hfa; exact ⟨kv, rfl, by cases hfa; rfl⟩
    have hmem : kv ∈ fields := List.mem_of_find?_eq_some hkv
    have hptr : kv.2 ∈ cellPtrs (.hdict fields) := by
      show kv.2 ∈ fields.map (·.2)
      exact List.mem_map_of_mem _ hmem
    have := regionClosed_ptrs hok ha heq kv.2 hptr
    rwa [hv] at this
  · cases hfa

theorem writeField_spec {base : Nat} {h : Heap} (a : Addr) (key : String)
    (va : Addr) (hok : Ok base h) (ha : base ≤ a) (hva : base ≤ va) :
    Ok base (writeField h a key va) ∧ Steps base h (writeField h a key va) := by
  unfold writeField
  split
  case _ fields heq =>
    refine write_spec _ _ hok ha ?_
    intro p hp
    rcases setFieldAddr_ptrs fields key va p hp with hp | hp
    · exact hp ▸ hva
    · exact regionClosed_ptrs hok ha heq p hp
  · exact ⟨hok, Steps.kept base h⟩

theorem materializeListH_spec {base : Nat} (mat : JVal → Heap → Addr × Heap)
    (hmat : ∀ v h, Ok base h →
      Ok base (mat v h).2 ∧ Steps base h (mat v h).2 ∧ base ≤ (mat v h).1) :
    ∀ (vs : List JVal) (h : Heap), Ok base h →
      Ok base (materializeListH mat vs h).2 ∧
      Steps base h (materializeListH mat vs h).2 ∧
      ∀ p ∈ (materializeListH mat vs h).1, base ≤ p := by
  intro vs
  induction vs with
  | nil =>
    intro h hok
    exact ⟨hok, Steps.kept base h, by intro p hp; simp [materializeListH] at hp⟩
  | cons v rest ih =>
    intro h hok
    obtain ⟨o1, s1, a1⟩ := hmat v h hok
    obtain ⟨o2, s2, a2⟩ := ih (mat v h).2 o1
    refine ⟨o2, Steps.chain s1 s2, ?_⟩
    intro p hp
    simp only [materializeListH, List.mem_cons] at hp
    rcases hp with rfl | hp
    · exact a1
    · exact a2 p hp

theorem materializeFieldsH_spec {base : Nat} (mat : JVal → Heap → Addr × Heap)
    (hmat : ∀ v h, Ok base h →
      Ok base (mat v h).2 ∧ Steps base h (mat v h).2 ∧ base ≤ (mat v h).1) :
    ∀ (fs : List (String × JVal)) (h : Heap), Ok base h →
      Ok base (materializeFieldsH mat fs h).2 ∧
      Steps base h (materializeFieldsH mat fs h).2 ∧
      ∀ kv ∈ (materializeFieldsH mat fs h).1, base ≤ kv.2 := by
  intro fs
  induction fs with
  | nil =>
    intro h hok
    exact ⟨hok, Steps.kept base h, by intro kv hkv; simp [materializeFieldsH] at hkv⟩
  | cons kv rest ih =>
    intro h hok
    obtain ⟨o1, s1, a1⟩ := hmat kv.2 h hok
    obtain ⟨o2, s2, a2⟩ := ih (mat kv.2 h).2 o1
    refine ⟨o2, Steps.chain s1 s2, ?_⟩
    intro kv' hkv'
    simp only [materializeFieldsH, List.mem_cons] at hkv'
    rcases hkv' with rfl | hkv'
    · exact a1
    · exact a2 kv' hkv'

theorem materializeH_spec {base : Nat} :
    ∀ (f : Nat) (v : JVal) (h : Heap), Ok base h →
      Ok base (materializeH f v h).2 ∧ Steps base h (materializeH f v h).2 ∧
      base ≤ (materializeH f v h).1 := by
  intro f
  induction f with
  | zero =>
    intro v h hok
    exact alloc_spec _ hok (by intro p hp; cases hp)
  | succ f ih =>
    intro v h hok
    cases v with
    | jnull => exact alloc_spec _ hok (by intro p hp; cases hp)
    | jbool b => exact alloc_spec _ hok (by intro p hp; cases hp)
    | jnum n => exact alloc_spec _ hok (by intro p hp; cases hp)
    | jstr s => exact alloc_spec _ hok (by intro p hp; cases hp)
    | jarr elems =>
      obtain ⟨o1, s1, a1⟩ := materializeListH_spec (materializeH f) ih elems h hok
      obtain ⟨o2, s2, a2⟩ := alloc_spec (.harr (materializeListH (materializeH f) elems h).1) o1 a1
      exact ⟨o2, Steps.chain s1 s2, a2⟩
    | jobj fields =>
      obtain ⟨o1, s1, a1⟩ := materializeFieldsH_spec (materializeH f) ih fields h hok
      obtain ⟨o2, s2, a2⟩ := alloc_spec
        (.hdict (materializeFieldsH (materializeH f) fields h).1) o1
        (by
          intro p hp
          simp only [cellPtrs, List.mem_map] at hp
          obtain ⟨kv, hkv, rfl⟩ := hp
          exact a1 kv hkv)
      exact ⟨o2, Steps.chain s1 s2, a2⟩

theorem materializeManyH_spec {base : Nat} :
    ∀ (bs : List JVal) (h : Heap), Ok base h →
      Ok base (materializeManyH bs h).2 ∧ Steps base h (materializeManyH bs h).2 ∧
      ∀ p ∈ (materializeManyH bs h).1, base ≤ p := by
  intro bs
  induction bs with
  | nil =>
    intro h hok
    exact ⟨hok, Steps.kept base h, by intro p hp; simp [materializeManyH] at hp⟩
  | cons v rest ih =>
    intro h hok
    obtain ⟨o1, s1, a1⟩ := materializeH_spec irFuel v h hok
    obtain ⟨o2, s2, a2⟩ := ih (materializeH irFuel v h).2 o1
    refine ⟨o2, Steps.chain s1 s2, ?_⟩
    intro p hp
    simp only [materializeManyH, List.mem_cons] at hp
    rcases hp with rfl | hp
    · exact a1
    · exact a2 p hp

theorem deepcopyListH_spec {base : Nat} (rec : Addr → Heap → Addr × Heap)
    (hrec : ∀ a h, Ok base h →
      Ok base (rec a h).2 ∧ Steps base h (rec a h).2 ∧ base ≤ (rec a h).1) :
    ∀ (as' : List Addr) (h : Heap), Ok base h →
      Ok base (deepcopyListH rec as' h).2 ∧
      Steps base h (deepcopyListH rec as' h).2 ∧
      ∀ p ∈ (deepcopyListH rec as' h).1, base ≤ p := by
  intro as'
  induction as' with
  | nil =>
    intro h hok
    exact ⟨hok, Steps.kept base h, by intro p hp; simp [deepcopyListH] at hp⟩
  | cons a rest ih =>
    intro h hok
    obtain ⟨o1, s1, a1⟩ := hrec a h hok
    obtain ⟨o2, s2, a2⟩ := ih (rec a h).2 o1
    refine ⟨o2, Steps.chain s1 s2, ?_⟩
    intro p hp
    simp only [deepcopyListH, List.mem_cons] at hp
    rcases hp with rfl | hp
    · exact a1
    · exact a2 p hp

theorem deepcopyFieldsH_spec {base : Nat} (rec : Addr → Heap → Addr × Heap)
    (hrec : ∀ a h, Ok base h →
      Ok base (rec a h).2 ∧ Steps base h (rec a h).2 ∧ base ≤ (rec a h).1) :
    ∀ (fs : List (String × Addr)) (h : Heap), Ok base h →
      Ok base (deepcopyFieldsH rec fs h).2 ∧
      Steps base h (deepcopyFieldsH rec fs h).2 ∧
      ∀ kv ∈ (deepcopyFieldsH rec fs h).1, base ≤ kv.2 := by
  intro fs
  induction fs with
  | nil =>
    intro h hok
    exact ⟨hok, Steps.kept base h, by intro kv hkv; simp [deepcopyFieldsH] at hkv⟩
  | cons kv rest ih =>
    intro h hok
    obtain ⟨o1, s1, a1⟩ := hrec kv.2 h hok
    obtain ⟨o2, s2, a2⟩ := ih (rec kv.2 h).2 o1
    refine ⟨o2, Steps.chain s1 s2, ?_⟩
    intro kv' hkv'
    simp only [deepcopyFieldsH, List.mem_cons] at hkv'
    rcases hkv' with rfl | hkv'
    · exact a1
    · exact a2 kv' hkv'

theorem deepcopyH_spec {base : Nat} :
    ∀ (f : Nat) (a : Addr) (h : Heap), Ok base h →
      Ok base (deepcopyH f a h).2 ∧ Steps base h (deepcopyH f a h).2 ∧
      base ≤ (deepcopyH f a h).1 := by
  intro f
  induction f with
  | zero =>
    intro a h hok
    exact alloc_spec _ hok (by intro p hp; cases hp)
  | succ f ih =>
    intro a h hok
    cases hl : h.lookup a with
    | none =>
      simp only [deepcopyH, hl]
      exact alloc_spec _ hok (by intro p hp; cases hp)
    | some c =>
      cases c with
      | hdict fields =>
        simp only [deepcopyH, hl]
        obtain ⟨o1, s1, a1⟩ := deepcopyFieldsH_spec (deepcopyH f) ih fields h hok
        obtain ⟨o2, s2, a2⟩ := alloc_spec
          (.hdict (deepcopyFieldsH (deepcopyH f) fields h).1) o1
          (by
            intro p hp
            simp only [cellPtrs, List.mem_map] at hp
            obtain ⟨kv, hkv, rfl⟩ := hp
            exact a1 kv hkv)
        exact ⟨o2, Steps.chain s1 s2, a2⟩
      | harr elems =>
        simp only [deepcopyH, hl]
        obtain ⟨o1, s1, a1⟩ := deepcopyListH_spec (deepcopyH f) ih elems h hok
        obtain ⟨o2, s2, a2⟩ := alloc_spec
          (.harr (deepcopyListH (deepcopyH f) elems h).1) o1 a1
        exact ⟨o2, Steps.chain s1 s2, a2⟩
      | hnull =>
        simp only [deepcopyH, hl]
        exact alloc_spec _ hok (by intro p hp; cases hp)
      | hbool b =>
        simp only [deepcopyH, hl]
        exact alloc_spec _ hok (by intro p hp; cases hp)
      | hnum n =>
        simp only [deepcopyH, hl]
        exact alloc_spec _ hok (by intro p hp; cases hp)
      | hstr s =>
        simp only [deepcopyH, hl]
        exact alloc_spec _ hok (by intro p hp; cases hp)

theorem extractFieldsH_spec {base : Nat} (rec : Addr → Heap → List Addr × Heap)
    (hrec : ∀ a h, Ok base h → base ≤ a →
      Ok base (rec a h).2 ∧ Steps base h (rec a h).2 ∧
      ∀ p ∈ (rec a h).1, base ≤ p) :
    ∀ (fs : List (String × Addr)) (h : Heap), Ok base h →
      (∀ kv ∈ fs, base ≤ kv.2) →
      Ok base (extractFieldsH rec fs h).2.2 ∧
      Steps base h (extractFieldsH rec fs h).2.2 ∧
      (∀ kv ∈ (extractFieldsH rec fs h).1, base ≤ kv.2) ∧
      (∀ p ∈ (extractFieldsH rec fs h).2.1, base ≤ p) := by
  intro fs
  induction fs with
  | nil =>
    intro h hok _
    refine ⟨hok, Steps.kept base h, ?_, ?_⟩
    · intro kv hkv; simp [extractFieldsH] at hkv
    · intro p hp; simp [extractFieldsH] at hp
  | cons kva rest ih =>
    intro h hok hfs
    obtain ⟨k, va⟩ := kva
    have hva : base ≤ va := hfs (k, va) (List.mem_cons_self _ _)
    have hrest : ∀ kv ∈ rest, base ≤ kv.2 :=
      fun kv hkv => hfs kv (List.mem_cons_of_mem _ hkv)
    by_cases hk : k = "text"
    · cases hl : h.lookup va with
      | some c =>
        cases c with
        | hstr s =>
          cases hd : decodeEmbeddedBlockPayload s with
          | some bs =>
            simp only [extractFieldsH, hk, if_true, hl, hd]
            obtain ⟨o1, s1, a1⟩ := @alloc_spec base h
              (.hstr "") hok (by intro p hp; cases hp)
            obtain ⟨o2, s2, a2⟩ := materializeManyH_spec bs (h.alloc (.hstr "")).2 o1
            obtain ⟨o3, s3, a3, a4⟩ := ih _ o2 hrest
            refine ⟨o3, Steps.chain s1 (Steps.chain s2 s3), ?_, ?_⟩
            · intro kv hkv
              rcases List.mem_cons.mp hkv with rfl | hkv
              · exact a1
              · exact a3 kv hkv
            · intro p hp
              rcases List.mem_append.mp hp with hp | hp
              · exact a2 p hp
              · exact a4 p hp
          | none =>
            simp only [extractFieldsH, hk, if_true, hl, hd]
            obtain ⟨o1, s1, a1, a2⟩ := ih h hok hrest
            refine ⟨o1, s1, ?_, a2⟩
            intro kv hkv
            rcases List.mem_cons.mp hkv with rfl | hkv
            · exact hva
            · exact a1 kv hkv
        | hnull =>
          simp only [extractFieldsH, hk, if_true, hl]
          obtain ⟨o1, s1, a1⟩ := hrec va h hok hva
          obtain ⟨o2, s2, a2, a3⟩ := ih _ o1 hrest
          refine ⟨o2, Steps.chain s1 s2, ?_, ?_⟩
          · intro kv hkv
            rcases List.mem_cons.mp hkv with rfl | hkv
            · exact hva
            · exact a2 kv hkv
          · intro p hp
            rcases List.mem_append.mp hp with hp | hp
            · exact a1 p hp
            · exact a3 p hp
        | hbool b =>
          simp only [extractFieldsH, hk, if_true, hl]
          obtain ⟨o1, s1, a1⟩ := hrec va h hok hva
          obtain ⟨o2, s2, a2, a3⟩ := ih _ o1 hrest
          refine ⟨o2, Steps.chain s1 s2, ?_, ?_⟩
          · intro kv hkv
            rcases List.mem_cons.mp hkv with rfl | hkv
            · exact hva
            · exact a2 kv hkv
          · intro p hp
            rcases List.mem_append.mp hp with hp | hp
            · exact a1 p hp
            · exact a3 p hp
        | hnum n =>
          simp only [extractFieldsH, hk, if_true, hl]
          obtain ⟨o1, s1, a1⟩ := hrec va h hok hva
          obtain ⟨o2, s2, a2, a3⟩ := ih _ o1 hrest
          refine ⟨o2, Steps.chain s1 s2, ?_, ?_⟩
          · intro kv hkv
            rcases List.mem_cons.mp hkv with rfl | hkv
            · exact hva
            · exact a2 kv hkv
          · intro p hp
            rcases List.mem_append.mp hp with hp | hp
            · exact a1 p hp
            · exact a3 p hp
        | harr elems =>
          simp only [extractFieldsH, hk, if_true, hl]
          obtain ⟨o1, s1, a1⟩ := hrec va h hok hva
          obtain ⟨o2, s2, a2, a3⟩ := ih _ o1 hrest
          refine ⟨o2, Steps.chain s1 s2, ?_, ?_⟩
          · intro kv hkv
            rcases List.mem_cons.mp hkv with rfl | hkv
            · exact hva
            · exact a2 kv hkv
          · intro p hp
            rcases List.mem_append.mp hp with hp | hp
            · exact a1 p hp
            · exact a3 p hp
        | hdict fields2 =>
          simp only [extractFieldsH, hk, if_true, hl]
          obtain ⟨o1, s1, a1⟩ := hrec va h hok hva
          obtain ⟨o2, s2, a2, a3⟩ := ih _ o1 hrest
          refine ⟨o2, Steps.chain s1 s2, ?_, ?_⟩
          · intro kv hkv
            rcases List.mem_cons.mp hkv with rfl | hkv
            · exact hva
            · exact a2 kv hkv
          · intro p hp
            rcases List.mem_append.mp hp with hp | hp
            · exact a1 p hp
            · exact a3 p hp
      | none =>
        simp only [extractFieldsH, hk, if_true, hl]
        obtain ⟨o1, s1, a1⟩ := hrec va h hok hva
        obtain ⟨o2, s2, a2, a3⟩ := ih _ o1 hrest
        refine ⟨o2, Steps.chain s1 s2, ?_, ?_⟩
        · intro kv hkv
          rcases List.mem_cons.mp hkv with rfl | hkv
          · exact hva
          · exact a2 kv hkv
        · intro p hp
          rcases List.mem_append.mp hp with hp | hp
          · exact a1 p hp
          · exact a3 p hp
    · simp only [extractFieldsH, hk, if_false]
      obtain ⟨o1, s1, a1⟩ := hrec va h hok hva
      obtain ⟨o2, s2, a2, a3⟩ := ih _ o1 hrest
      refine ⟨o2, Steps.chain s1 s2, ?_, ?_⟩
      · intro kv hkv
        rcases List.mem_cons.mp hkv with rfl | hkv
        · exact hva
        · exact a2 kv hkv
      · intro p hp
        rcases List.mem_append.mp hp with hp | hp
        · exact a1 p hp
        · exact a3 p hp

theorem extractElemsH_spec {base : Nat} (rec : Addr → Heap → List Addr × Heap)
    (hrec : ∀ a h, Ok base h → base ≤ a →
      Ok base (rec a h).2 ∧ Steps base h (rec a h).2 ∧
      ∀ p ∈ (rec a h).1, base ≤ p) :
    ∀ (es : List Addr) (h : Heap), Ok base h → (∀ e ∈ es, base ≤ e) →
      Ok base (extractElemsH rec es h).2 ∧
      Steps base h (extractElemsH rec es h).2 ∧
      ∀ p ∈ (extractElemsH rec es h).1, base ≤ p := by
  intro es
  induction es with
  | nil =>
    intro h hok _
    exact ⟨hok, Steps.kept base h, by intro p hp; simp [extractElemsH] at hp⟩
  | cons e rest ih =>
    intro h hok hes
    obtain ⟨o1, s1, a1⟩ := hrec e h hok (hes e (List.mem_cons_self _ _))
    obtain ⟨o2, s2, a2⟩ := ih (rec e h).2 o1
      (fun x hx => hes x (List.mem_cons_of_mem _ hx))
    refine ⟨o2, Steps.chain s1 s2, ?_⟩
    intro p hp
    simp only [extractElemsH] at hp
    rcases List.mem_append.mp hp with hp | hp
    · exact a1 p hp
    · exact a2 p hp

theorem extractH_spec {base : Nat} :
    ∀ (f : Nat) (a : Addr) (h : Heap), Ok base h → base ≤ a →
      Ok base (extractH f a h).2 ∧ Steps base h (extractH f a h).2 ∧
      ∀ p ∈ (extractH f a h).1, base ≤ p := by
  intro f
  induction f with
  | zero =>
    intro a h hok _
    exact ⟨hok, Steps.kept base h, by intro p hp; simp [extractH] at hp⟩
  | succ f ih =>
    intro a h hok ha
    cases hl : h.lookup a with
    | none =>
      simp only [extractH, hl]
      exact ⟨hok, Steps.kept base h, by intro p hp; simp at hp⟩
    | some c =>
      cases c with
      | hdict fields =>
        simp only [extractH, hl]
        have hfs : ∀ kv ∈ fields, base ≤ kv.2 := by
          intro kv hkv
          exact regionClosed_ptrs hok ha hl kv.2
            (by show kv.2 ∈ fields.map (·.2); exact List.mem_map_of_mem _ hkv)
        obtain ⟨o1, s1, a1, a2⟩ := extractFieldsH_spec (extractH f) ih fields h hok hfs
        obtain ⟨o2, s2⟩ := @write_spec base _ a
          (.hdict (extractFieldsH (extractH f) fields h).1) o1 ha
          (by
            intro p hp
            simp only [cellPtrs, List.mem_map] at hp
            obtain ⟨kv, hkv, rfl⟩ := hp
            exact a1 kv hkv)
        exact ⟨o2, Steps.chain s1 s2, a2⟩
      | harr elems =>
        simp only [extractH, hl]
        have hes : ∀ e ∈ elems, base ≤ e := by
          intro e he
          exact regionClosed_ptrs hok ha hl e he
        exact extractElemsH_spec (extractH f) ih elems h hok hes
      | hnull =>
        simp only [extractH, hl]
        exact ⟨hok, Steps.kept base h, by intro p hp; simp at hp⟩
      | hbool b =>
        simp only [extractH, hl]
        exact ⟨hok, Steps.kept base h, by intro p hp; simp at hp⟩
      | hnum n =>
        simp only [extractH, hl]
        exact ⟨hok, Steps.kept base h, by intro p hp; simp at hp⟩
      | hstr s =>
        simp only [extractH, hl]
        exact ⟨hok, Steps.kept base h, by intro p hp; simp at hp⟩

theorem expandOneH_spec {base : Nat} (rec : List Addr → Heap → List Addr × Heap)
    (hrec : ∀ bs h, Ok base h → (∀ b ∈ bs, base ≤ b) →
      Ok base (rec bs h).2 ∧ Steps base h (rec bs h).2 ∧
      ∀ p ∈ (rec bs h).1, base ≤ p) :
    ∀ (bs : List Addr) (h : Heap), Ok base h → (∀ b ∈ bs, base ≤ b) →
      Ok base (expandOneH rec bs h).2 ∧ Steps base h (expandOneH rec bs h).2 ∧
      ∀ p ∈ (expandOneH rec bs h).1, base ≤ p := by
  intro bs
  induction bs with
  | nil =>
    intro h hok _
    exact ⟨hok, Steps.kept base h, by intro p hp; simp [expandOneH] at hp⟩
  | cons b rest ih =>
    intro h hok hbs
    have hb : base ≤ b := hbs b (List.mem_cons_self _ _)
    have hrest : ∀ x ∈ rest, base ≤ x :=
      fun x hx => hbs x (List.mem_cons_of_mem _ hx)
    obtain ⟨o1, s1, a1⟩ := extractH_spec irFuel b h hok hb
    by_cases he : (extractH irFuel b h).1.isEmpty
    · simp only [expandOneH, he, if_true]
      obtain ⟨o2, s2, a2⟩ := ih (extractH irFuel b h).2 o1 hrest
      refine ⟨o2, Steps.chain s1 s2, ?_⟩
      intro p hp
      rcases List.mem_cons.mp hp with rfl | hp
      · exact hb
      · rcases List.mem_append.mp hp with hp | hp
        · cases hp
        · exact a2 p hp
    · simp only [expandOneH, he, if_false]
      obtain ⟨o2, s2, a2⟩ := hrec (extractH irFuel b h).1 (extractH irFuel b h).2 o1 a1
      obtain ⟨o3, s3, a3⟩ := ih _ o2 hrest
      refine ⟨o3, Steps.chain s1 (Steps.chain s2 s3), ?_⟩
      intro p hp
      rcases List.mem_cons.mp hp with rfl | hp
      · exact hb
      · rcases List.mem_append.mp hp with hp | hp
        · exact a2 p hp
        · exact a3 p hp

theorem expandH_spec {base : Nat} :
    ∀ (f : Nat) (bs : List Addr) (h : Heap), Ok base h →
      (∀ b ∈ bs, base ≤ b) →
      Ok base (expandH f bs h).2 ∧ Steps base h (expandH f bs h).2 ∧
      ∀ p ∈ (expandH f bs h).1, base ≤ p := by
  intro f
  induction f with
  | zero =>
    intro bs h hok hbs
    exact ⟨hok, Steps.kept base h, hbs⟩
  | succ f ih =>
    intro bs h hok hbs
    exact expandOneH_spec (expandH f) ih bs h hok hbs

theorem chapterBlockAddrs_ge {base : Nat} {h : Heap} {a : Addr}
    (hok : Ok base h) (ha : base ≤ a) :
    ∀ b ∈ chapterBlockAddrs h a, base ≤ b := by
  unfold chapterBlockAddrs
  split
  case _ ba hga =>
    split
    case _ elems hlb =>
      intro b hb
      exact regionClosed_ptrs hok (getFieldAddr_ge hok ha hga) hlb b hb
    case _ =>
      intro b hb
      cases hb
  case _ =>
    intro b hb
    cases hb

theorem prepareChapterH_spec {base : Nat} (ch : Addr) (h : Heap)
    (hok : Ok base h) :
    Ok base (prepareChapterH ch h).2 ∧ Steps base h (prepareChapterH ch h).2 ∧
    base ≤ (prepareChapterH ch h).1 := by
  obtain ⟨o1, s1, a1⟩ := deepcopyH_spec irFuel ch h hok
  have hblocks := chapterBlockAddrs_ge o1 a1
  obtain ⟨o2, s2, a2⟩ := expandH_spec irFuel _ (deepcopyH irFuel ch h).2 o1 hblocks
  obtain ⟨o3, s3, a3⟩ := @alloc_spec base _ (.harr _) o2 a2
  obtain ⟨o4, s4⟩ := @writeField_spec base _ (deepcopyH irFuel ch h).1
    "blocks" _ o3 a1 a3
  exact ⟨o4, Steps.chain s1 (Steps.chain s2 (Steps.chain s3 s4)), a1⟩

theorem prepareChaptersH_spec {base : Nat} :
    ∀ (chs : List Addr) (h : Heap), Ok base h →
      Ok base (prepareChaptersH chs h).2 ∧
      Steps base h (prepareChaptersH chs h).2 ∧
      ∀ p ∈ (prepareChaptersH chs h).1, base ≤ p := by
  intro chs
  induction chs with
  | nil =>
    intro h hok
    exact ⟨hok, Steps.kept base h, by intro p hp; simp [prepareChaptersH] at hp⟩
  | cons ch rest ih =>
    intro h hok
    obtain ⟨o1, s1, a1⟩ := prepareChapterH_spec ch h hok
    obtain ⟨o2, s2, a2⟩ := ih (prepareChapterH ch h).2 o1
    refine ⟨o2, Steps.chain s1 s2, ?_⟩
    intro p hp
    simp only [prepareChaptersH, List.mem_cons] at hp
    rcases hp with rfl | hp
    · exact a1
    · exact a2 p hp

theorem ncbProps_spec {base : Nat} (block : Addr) (h : Heap)
    (hok : Ok base h) (hb : base ≤ block) :
    Ok base (ncbProps block h) ∧ Steps base h (ncbProps block h) := by
  unfold ncbProps
  split
  · exact ⟨hok, Steps.kept base h⟩
  · obtain ⟨o1, s1, a1⟩ := @alloc_spec base _ (.hdict []) hok
      (by intro p hp; cases hp)
    obtain ⟨o2, s2⟩ := writeField_spec block "props" _ o1 hb a1
    exact ⟨o2, Steps.chain s1 s2⟩

theorem ncbScales_spec {base : Nat} (block : Addr) (h : Heap)
    (hok : Ok base h) (hb : base ≤ block) :
    Ok base (ncbScales block h) ∧ Steps base h (ncbScales block h) := by
  unfold ncbScales
  split
  case _ sa hga =>
    split
    case _ =>
      split
      case _ pAddr hgp =>
        have hpa : base ≤ pAddr := getFieldAddr_ge hok hb hgp
        obtain ⟨o1, s1, a1⟩ := materializeH_spec irFuel _ h hok
        obtain ⟨o2, s2⟩ := writeField_spec pAddr "options" _ o1 hpa a1
        exact ⟨o2, Steps.chain s1 s2⟩
      case _ => exact ⟨hok, Steps.kept base h⟩
    case _ => exact ⟨hok, Steps.kept base h⟩
  case _ => exact ⟨hok, Steps.kept base h⟩

theorem ncbData_spec {base : Nat} (block : Addr) (h : Heap)
    (hok : Ok base h) (hb : base ≤ block) :
    Ok base (ncbData block h) ∧ Steps base h (ncbData block h) := by
  unfold ncbData
  split
  · exact ⟨hok, Steps.kept base h⟩
  · obtain ⟨o1, s1, a1⟩ := @alloc_spec base _ (.hdict []) hok
      (by intro p hp; cases hp)
    obtain ⟨o2, s2⟩ := writeField_spec block "data" _ o1 hb a1
    exact ⟨o2, Steps.chain s1 s2⟩

theorem ncbFallback_spec {base : Nat} (block : Addr) (ctx : Option Addr)
    (h : Heap) (hok : Ok base h) (hb : base ≤ block) :
    Ok base (ncbFallback block ctx h) ∧ Steps base h (ncbFallback block ctx h) := by
  unfold ncbFallback
  split
  · exact ⟨hok, Steps.kept base h⟩
  · dsimp only
    repeat' split
    all_goals try exact ⟨hok, Steps.kept base h⟩
    all_goals
      obtain ⟨o1, s1, a1⟩ := materializeH_spec irFuel _ h hok
      obtain ⟨o2, s2⟩ := writeField_spec block "data" _ o1 hb a1
      exact ⟨o2, Steps.chain s1 s2⟩

theorem ncbLabels_spec {base : Nat} (block : Addr) (h : Heap)
    (hok : Ok base h) (hb : base ≤ block) :
    Ok base (ncbLabels block h) ∧ Steps base h (ncbLabels block h) := by
  unfold ncbLabels
  split
  · exact ⟨hok, Steps.kept base h⟩
  case _ da hga =>
    have hda : base ≤ da := getFieldAddr_ge hok hb hga
    dsimp only
    repeat' split
    all_goals try exact ⟨hok, Steps.kept base h⟩
    all_goals
      obtain ⟨o1, s1, a1⟩ := materializeH_spec irFuel _ h hok
      obtain ⟨o2, s2⟩ := writeField_spec da "labels" _ o1 hda a1
      exact ⟨o2, Steps.chain s1 s2⟩

theorem normalizeChartBlockH_spec {base : Nat} (block : Addr)
    (ctx : Option Addr) (h : Heap) (hok : Ok base h) (hb : base ≤ block) :
    Ok base (normalizeChartBlockH block ctx h) ∧
    Steps base h (normalizeChartBlockH block ctx h) := by
  unfold normalizeChartBlockH
  split
  · exact ⟨hok, Steps.kept base h⟩
  · split
    · exact ⟨hok, Steps.kept base h⟩
    · obtain ⟨o1, s1⟩ := ncbProps_spec block h hok hb
      obtain ⟨o2, s2⟩ := ncbScales_spec block _ o1 hb
      obtain ⟨o3, s3⟩ := ncbData_spec block _ o2 hb
      obtain ⟨o4, s4⟩ := ncbFallback_spec block ctx _ o3 hb
      obtain ⟨o5, s5⟩ := ncbLabels_spec block _ o4 hb
      exact ⟨o5, Steps.chain s1 (Steps.chain s2 (Steps.chain s3
        (Steps.chain s4 s5)))⟩

theorem foldNormalize_spec {base : Nat} :
    ∀ (ws : List (Addr × Option Addr)) (h : Heap), Ok base h →
      (∀ w ∈ ws, base ≤ w.1) →
      Ok base (ws.foldl (fun hh w => normalizeChartBlockH w.1 w.2 hh) h) ∧
      Steps base h (ws.foldl (fun hh w => normalizeChartBlockH w.1 w.2 hh) h) := by
  intro ws
  induction ws with
  | nil => intro h hok _; exact ⟨hok, Steps.kept base h⟩
  | cons w rest ih =>
    intro h hok hws
    obtain ⟨o1, s1⟩ := normalizeChartBlockH_spec w.1 w.2 h hok
      (hws w (List.mem_cons_self _ _))
    obtain ⟨o2, s2⟩ := ih _ o1 (fun x hx => hws x (List.mem_cons_of_mem _ hx))
    exact ⟨o2, Steps.chain s1 s2⟩

/-! ## Claim theorems -/

/-- C1 — counterexample.  The claim asserts that normalizing the nine
single-cell rows `姓名/年龄/城市/张三/30/北京/李四/25/上海` yields a
3-column header row plus 2 data rows.  In fact `张三` also satisfies
`_is_potential_table_header` (two characters, no digit, no listed symbol),
so the detected header span is 4; `9 - 4 = 5` is not divisible by 4 and the
rows are returned unchanged (9 rows, not 3). -/
theorem c1_table_worked_example_refuted :
    normalizeTableRows tableExampleRows = tableExampleRows ∧
    (normalizeTableRows tableExampleRows).length ≠ 3 :=
  ⟨rfl, by decide⟩

/-- C1 — amended claim.  On the worked example `normalize` is the identity:
the scan counts four consecutive header candidates (`姓名`, `年龄`, `城市`
and `张三`, capped at `min(8, 9 // 2) = 4`), the remaining 5 rows are not a
multiple of the span 4, so `_detect_transposed_header_span` returns 0 and
the rows are returned unchanged. -/
theorem c1_table_worked_example_unchanged :
    normalizeTableRows tableExampleRows = tableExampleRows ∧
    detectTransposedHeaderSpan tableExampleRows
      (tableExampleRows.map extractRowText) = 0 ∧
    isPotentialTableHeader "张三" = true :=
  ⟨rfl, by decide, by decide⟩

/-- C2 — counterexample.  The `ghost` anchor resolves to nothing
(`_validate_toc_anchor` returns `False`), yet the entry is still collected:
the code only logs a warning for an invalid anchor and appends the entry
anyway (there is no `continue` after the warning). -/
theorem c2_invalid_anchor_entry_kept :
    validateTocAnchor (.jstr "ghost") tocExampleAnchorMap [] tocExampleChapters
        = false ∧
    (collectTocEntries tocExampleMetadata tocExampleAnchorMap []
        tocExampleChapters).map (fun e => (e.get "anchor").getD .jnull) =
      [.jstr "c1", .jstr "ghost"] :=
  ⟨rfl, rfl⟩

/-- C2 — amended claim.  In the custom-entries branch an entry is dropped
exactly when it has no usable anchor at all (both `entry["anchor"]` and the
`chapterId` lookup are falsy); an entry whose anchor merely fails
`_validate_toc_anchor` is kept, the failure being only logged.  Entries are
otherwise transformed independently of one another. -/
theorem c2_custom_toc_entry_collection (metadata tocCfg : JVal)
    (entries : List JVal) (cam : List (JVal × JVal))
    (lm : List (String × LabelRec)) (chs : List JVal)
    (h1 : metadata.get "toc" = some tocCfg)
    (h2 : tocCfg.get "customEntries" = some (.jarr entries))
    (h3 : entries ≠ []) :
    collectTocEntries metadata cam lm chs =
      entries.filterMap (tocCustomEntry cam) ∧
    ∀ entry, (tocCustomEntry cam entry = none ↔
      pyTruthyOpt (pyOr (entry.get "anchor")
        (anchorMapGet cam (entry.get "chapterId"))) = false) := by
  constructor
  · have htr : pyTruthy tocCfg = true := by
      cases tocCfg with
      | jobj fields =>
        cases fields with
        | nil => simp [JVal.get, jget, List.find?] at h2
        | cons kv rest => simp [pyTruthy]
      | jnull => simp [JVal.get] at h2
      | jbool b => simp [JVal.get] at h2
      | jnum n => simp [JVal.get] at h2
      | jstr s => simp [JVal.get] at h2
      | jarr l => simp [JVal.get] at h2
    have hne : entries.isEmpty = false := by
      cases entries with
      | nil => exact absurd rfl h3
      | cons e rest => rfl
    simp only [collectTocEntries, h1, pyOr, pyTruthyOpt, htr, if_true]
    simp only [h2, pyTruthyOpt, pyTruthy, hne, Bool.not_false, if_true]
  · intro entry
    unfold tocCustomEntry
    cases hA : pyTruthyOpt (pyOr (entry.get "anchor")
        (anchorMapGet cam (entry.get "chapterId"))) with
    | true => simp [hA]
    | false => simp [hA]

/-- C2 — witness for the amended claim at the concrete TOC example: both
custom entries (including the one with the unresolvable `ghost` anchor) are
collected, each normalized to level-2 entries with their titles. -/
theorem c2_custom_toc_entry_collection_witness :
    collectTocEntries tocExampleMetadata tocExampleAnchorMap []
        tocExampleChapters =
      [.jobj [("level", .jnum 2), ("text", .jstr "第一章"),
         ("anchor", .jstr "c1"), ("description", .jnull)],
       .jobj [("level", .jnum 2), ("text", .jstr "幽灵"),
         ("anchor", .jstr "ghost"), ("description", .jnull)]] := by
  have h := (c2_custom_toc_entry_collection tocExampleMetadata
    (.jobj [("customEntries", .jarr [tocEntryOk, tocEntryGhost])])
    [tocEntryOk, tocEntryGhost] tocExampleAnchorMap [] tocExampleChapters
    rfl rfl (List.cons_ne_nil _ _)).1
  exact h.trans rfl

/-- C3 — counterexample.  The fallback markup is not present for every
widget: for a widget whose normalized data has no labels/datasets,
`_render_widget_fallback` returns the empty string, so the rendered card
contains no fallback markup at all (the claim asserts non-empty fallback
markup for every widget, including exactly this case). -/
theorem c3_fallback_absent_for_empty_data :
    (renderWidgetAssemble emptyDataWidget 0).fallback = "" :=
  rfl

/-- C3 — amended claim.  Every widget card carries the
`id="chart-config-N"` config script tag and the
`<canvas id="chart-N" data-config-id="chart-config-N">` placeholder with
matching `N`, and whatever fallback markup is produced appears inside the
card; but the fallback is empty (omitted) when the normalized chart data
has no labels or datasets (and non-empty when it has them, as for the
populated example widget). -/
theorem c3_widget_output_contract :
    (∀ block n,
      (configIdAttr n).data <:+: (renderWidgetAssemble block n).scriptTag.data ∧
      (canvasOpenTag n).data <:+: (renderWidgetAssemble block n).htmlOut.data ∧
      (renderWidgetAssemble block n).fallback.data <:+:
        (renderWidgetAssemble block n).htmlOut.data) ∧
    (renderWidgetAssemble emptyDataWidget 0).fallback = "" ∧
    (renderWidgetAssemble populatedChartWidget 0).fallback ≠ "" := by
  refine ⟨fun block n => ⟨?_, ?_, ?_⟩, rfl, by decide⟩
  · exact ⟨"<script type=\x22application/json\x22 ".data,
      (">" ++ widgetConfigJson block ++ "</script>").data,
      by simp [renderWidgetAssemble, List.append_assoc]⟩
  · exact ⟨(widgetCardPre block).data,
      ("</canvas>\n          </div>\n          " ++ widgetFallbackHtml block ++
        "\n        </div>\n        ").data,
      by simp [renderWidgetAssemble, List.append_assoc]⟩
  · exact ⟨(widgetCardPre block ++ canvasOpenTag n ++
        "</canvas>\n          </div>\n          ").data,
      "\n        </div>\n        ".data,
      by simp [renderWidgetAssemble, List.append_assoc]⟩

/-- C4 — counterexample.  The Artifact Cleaner is not idempotent: cleaning
`x\x7ba[b\x7dc` truncates at the unmatched `[`, which removes the `\x7d`
and leaves `x\x7ba`; cleaning that again truncates at the now-unmatched
`\x7b`, giving `x`. -/
theorem c4_clean_not_idempotent :
    cleanTextFromJsonArtifacts (cleanTextFromJsonArtifacts "x\x7ba[b\x7dc") ≠
      cleanTextFromJsonArtifacts "x\x7ba[b\x7dc" := by
  decide

/-- C4 — amended claim.  Every pass of the Artifact Cleaner only removes
characters, so cleaning never lengthens a string and iterated cleaning
reaches a fixed point; but a single application is not idempotent
(see the counterexample). -/
theorem c4_clean_length_nonincreasing (s : String) :
    (cleanTextFromJsonArtifacts s).length ≤ s.length := by
  unfold cleanTextFromJsonArtifacts
  by_cases h : s = ""
  · simp [h]
  · simp only [h, if_false]
    show (cleanChars s.data).length ≤ s.data.length
    exact cleanChars_length_le _

/-- C6 — the Heading Labeler worked example: two chapters, each one level-1
heading followed by two level-2 headings with distinct anchors, label in
document order exactly `一、`, `1.1`, `1.2`, `二、`, `2.1`, `2.2`. -/
theorem c6_heading_labels_worked_example :
    (computeHeadingLabels [headingExampleCh1, headingExampleCh2]).map
        (fun kv => (kv.1, kv.2.label)) =
      [("a1", "一、"), ("a2", "1.1"), ("a3", "1.2"),
       ("a4", "二、"), ("a5", "2.1"), ("a6", "2.2")] := by
  decide

/-- C7 — the Callout Sanitizer worked example splits
`[paragraph, table, widget, paragraph]` into kept `[paragraph, table]` and
overflow `[widget, paragraph]`; and in general (for callouts without nested
`list` children, which follow their own recursive rule) the first child
whose type is outside `CALLOUT_ALLOWED_TYPES` turns itself and every
following sibling into overflow, in order. -/
theorem c7_callout_split :
    splitCalloutContent irFuel calloutExampleBlocks =
      ([mkTypedBlock "paragraph", mkTypedBlock "table"],
       [mkTypedBlock "widget", mkTypedBlock "paragraph"]) ∧
    ∀ fuel blocks, (∀ b ∈ blocks, isStrVal (b.get "type") "list" = false) →
      splitCalloutContent (fuel + 1) blocks =
        (blocks.takeWhile (fun b => isAllowedCalloutType (b.get "type")),
         blocks.dropWhile (fun b => isAllowedCalloutType (b.get "type"))) := by
  refine ⟨rfl, fun fuel blocks h => ?_⟩
  show splitGo (sanitizeCalloutList (splitCalloutContent fuel)) blocks = _
  exact splitGo_no_list _ blocks h

/-- C7 — witness: the general statement applied to the worked example
itself (no `list` children; the first disallowed child is the `widget` at
index 2). -/
theorem c7_callout_split_witness :
    splitCalloutContent 1000 calloutExampleBlocks =
      ([mkTypedBlock "paragraph", mkTypedBlock "table"],
       [mkTypedBlock "widget", mkTypedBlock "paragraph"]) := by
  have h := c7_callout_split.2 999 calloutExampleBlocks (by
    intro b hb
    simp only [calloutExampleBlocks, List.mem_cons, List.not_mem_nil, or_false] at hb
    rcases hb with rfl | rfl | rfl | rfl <;> rfl)
  exact h.trans rfl

/-- C8 — the Inline Resolver worked examples: a run whose text is
`'\x7b"xrefs": [1,2]\x7d'` (keys a subset of the sentinel set) resolves to
empty text with no marks, and a run whose text is
`'\x7b"text":"hi","marks":[\x7b"type":"bold"\x7d]\x7d'` resolves to text
`hi` with the bold mark merged in. -/
theorem c8_inline_resolver_worked_examples :
    normalizeInlinePayload inlineExampleRun1 = (.jstr "", []) ∧
    normalizeInlinePayload inlineExampleRun2 =
      (.jstr "hi", [.jobj [("type", .jstr "bold")]]) :=
  ⟨rfl, rfl⟩

/-- C9 — block repair never shrinks the sequence: the expanded list is at
least as long as the input (in particular a singleton input yields at least
one block), and every input block — with its decoded `text` fields cleared —
is kept in place, the recovered blocks being spliced in after it (the
cleared originals form a sublist of the result). -/
theorem c9_repair_never_shrinks :
    (∀ fuel blocks, blocks.length ≤ (expandBlocksInPlace fuel blocks).length) ∧
    (∀ fuel (b : JVal), 1 ≤ (expandBlocksInPlace fuel [b]).length) ∧
    (∀ fuel blocks,
      List.Sublist (blocks.map (fun b => (extractEmbeddedBlocks b).1))
        (expandBlocksInPlace (fuel + 1) blocks)) := by
  have hlen : ∀ fuel blocks, blocks.length ≤ (expandBlocksInPlace fuel blocks).length := by
    intro fuel blocks
    cases fuel with
    | zero => exact Nat.le_refl _
    | succ f => exact expandOne_length_le _ _
  exact ⟨hlen, fun fuel b => hlen fuel [b],
    fun fuel blocks => expandOne_sublist _ _⟩

/-- C10 — when the hero KPI items and a body `kpiGrid` block's items
normalize to the same signature, `_render_kpi_grid` returns the empty
string: the block is silently dropped from the output. -/
theorem c10_duplicate_kpi_grid_skipped (heroItems block : JVal)
    (sig : List KpiSigItem)
    (h1 : kpiSignatureFromItems heroItems = some sig)
    (h2 : kpiSignatureFromItems ((block.get "items").getD .jnull) = some sig) :
    renderKpiGrid (kpiSignatureFromItems heroItems) block = "" := by
  unfold renderKpiGrid shouldSkipOverviewKpi
  rw [h1, h2]
  simp

/-- C10 — witness: a body KPI grid whose single item matches the hero KPIs
renders to the empty string. -/
theorem c10_duplicate_kpi_grid_skipped_witness :
    renderKpiGrid (kpiSignatureFromItems kpiExampleItems)
      (.jobj [("items", kpiExampleItems)]) = "" :=
  c10_duplicate_kpi_grid_skipped kpiExampleItems
    (.jobj [("items", kpiExampleItems)])
    [("声量", "120", "条", "+5%", "up")] rfl rfl

/-- C5 — `render` never mutates its input document.  In the heap model,
the mutating passes of one render call (the deep copy + in-place block
repair of `_prepare_chapters`, followed by the in-place
`_normalize_chart_block` of each widget block inside the copied region)
leave every address allocated before the call — in particular the whole
input document, chapters, blocks and metadata — bound to its original
cell.  The `Ok` hypothesis says the pre-existing heap has no cell at or
above its allocation frontier; the `hws` hypothesis says the normalized
widget blocks live in the copied region (they are reached from the
prepared chapters, whose whole reachable region lies at or above the
frontier by `prepareChaptersH_spec`). -/
theorem c5_render_preserves_input_document
    (h : Heap) (chapters : List Addr) (ws : List (Addr × Option Addr))
    (hok : Ok h.next h) (hws : ∀ w ∈ ws, h.next ≤ w.1) :
    ∀ a, a < h.next →
      ((renderMutationPass chapters ws h).2).lookup a = h.lookup a := by
  obtain ⟨o1, s1, _⟩ := prepareChaptersH_spec chapters h hok
  obtain ⟨_, s2⟩ := foldNormalize_spec ws _ o1 hws
  intro a ha
  exact (Steps.chain s1 s2).2 a ha

/-- C5 — witness: on the concrete two-cell document heap, preparing its one
chapter and normalizing a block inside the copied region leaves both
original cells (the chapter dict and its anchor string) untouched. -/
theorem c5_render_preserves_input_document_witness :
    ((renderMutationPass [0] [(3, some 3)] witnessHeap).2).lookup 0 =
        witnessHeap.lookup 0 ∧
    ((renderMutationPass [0] [(3, some 3)] witnessHeap).2).lookup 1 =
        witnessHeap.lookup 1 := by
  have hok : Ok witnessHeap.next witnessHeap := by
    refine ⟨Nat.le_refl _, ?_⟩
    intro a ha c hc p hpc
    have h0 : (0 : Addr) ≠ a := by
      intro e
      rw [← e] at ha
      exact absurd ha (by decide)
    have h1 : (1 : Addr) ≠ a := by
      intro e
      rw [← e] at ha
      exact absurd ha (by decide)
    simp [witnessHeap, Heap.lookup, List.find?, h0, h1] at hc
  have hws : ∀ w ∈ [((3 : Addr), some (3 : Addr))], witnessHeap.next ≤ w.1 := by
    intro w hw
    simp only [List.mem_singleton] at hw
    subst hw
    decide
  exact ⟨c5_render_preserves_input_document witnessHeap [0] [(3, some 3)]
      hok hws 0 (by decide),
    c5_render_preserves_input_document witnessHeap [0] [(3, some 3)]
      hok hws 1 (by decide)⟩

end BettaFish
